import Mathlib

/-!
Verification development for the medical-transcription extraction engine
(`app.py`).  The engine is a cascade of Python-regex based extractors; we
embed it shallowly: every regular expression of the source is compiled to a
backtracking parser over `List Char` whose candidate order reproduces Python
`re` semantics (leftmost match, greedy/lazy preference, IGNORECASE), and
`re.search` / `re.findall` / `re.sub` are modelled by explicit scanners.
Python `int(...)` (the only operation in the engine that can raise) is
modelled by a partial conversion, and the extractors that call it return
`Except Unit _`.
-/

namespace MedTrans

abbrev Chars := List Char

/-- Python `\s` (whitespace) on the ASCII range. -/
def isPyWs (c : Char) : Bool :=
  c = ' ' || c = '\t' || c = '\n' || c = '\r' || c = '\x0b' || c = '\x0c'

/-- Python `\w` (word character) on the ASCII range. -/
def isWordChar (c : Char) : Bool := c.isAlpha || c.isDigit || c = '_'

/-- Case-insensitive character comparison (re.IGNORECASE, ASCII). -/
def ciEq (a b : Char) : Bool := a.toLower = b.toLower

/-- Python `str.lower()` (ASCII). -/
def lowerL (l : Chars) : Chars := l.map Char.toLower

/-- Python `a in b` substring test. -/
def pyInAux (sub : Chars) : Chars → Bool
  | [] => List.isPrefixOf sub []
  | c :: rest => List.isPrefixOf sub (c :: rest) || pyInAux sub rest

def pyIn (sub big : Chars) : Bool := pyInAux sub big

/-- Python `str.strip()`. -/
def pyStrip (l : Chars) : Chars :=
  ((l.dropWhile isPyWs).reverse.dropWhile isPyWs).reverse

/-- Python `str.rstrip(bad)`. -/
def rstripChars (bad : Chars) (l : Chars) : Chars :=
  (l.reverse.dropWhile (fun c => bad.contains c)).reverse

/-- Python `str.title()` (ASCII cased characters). -/
def titleAux : Bool → Chars → Chars
  | _, [] => []
  | prevAlpha, c :: rest =>
    (if c.isAlpha then (if prevAlpha then c.toLower else c.toUpper) else c) ::
      titleAux c.isAlpha rest

def pyTitle (l : Chars) : Chars := titleAux false l

/-- Model of Python `int(s)` restricted to the digit-only strings the engine
passes to it (a non digit-only argument raises, modelled as `none`). -/
def pyInt (l : Chars) : Option Nat :=
  if l ≠ [] && l.all Char.isDigit then
    some (l.foldl (fun a c => a * 10 + (c.toNat - 48)) 0)
  else none

/-- Order-preserving deduplication, Python `list(dict.fromkeys(xs))`. -/
def dedupFirstAux : List String → List String → List String
  | _, [] => []
  | seen, x :: rest =>
    if seen.contains x then dedupFirstAux seen rest
    else x :: dedupFirstAux (x :: seen) rest

def dedupFirst (l : List String) : List String := dedupFirstAux [] l

/-! ## Backtracking parser combinators

A parser maps the remaining input to the list of possible
(result, rest-of-input) pairs, ordered by regex backtracking preference:
earlier candidates are the ones Python's `re` engine tries first. -/

def P (α : Type) := Chars → List (α × Chars)

def ppure {α : Type} (a : α) : P α := fun cs => [(a, cs)]

def pbind {α β : Type} (p : P α) (f : α → P β) : P β :=
  fun cs => (p cs).bind fun ar => f ar.1 ar.2

def pfail {α : Type} : P α := fun _ => []

/-- Alternation `x|y`: left branch preferred. -/
def por {α : Type} (p q : P α) : P α := fun cs => p cs ++ q cs

/-- Single character matching a predicate (a character class). -/
def pch (f : Char → Bool) : P Char := fun cs =>
  match cs with
  | c :: rest => if f c then [(c, rest)] else []
  | [] => []

/-- Case-insensitive literal, returning the matched characters
(with their original casing, as a capture would). -/
def plitCIc : Chars → P Chars
  | [] => ppure []
  | c :: rest =>
    pbind (pch (fun d => ciEq d c)) fun d =>
      pbind (plitCIc rest) fun l => ppure (d :: l)

/-- Case-insensitive literal, result discarded. -/
def plitCI (s : Chars) : P Unit := pbind (plitCIc s) fun _ => ppure ()

/-- Greedy `class*`: candidates from the maximal munch down to zero. -/
def pmanyG (f : Char → Bool) : P Chars := fun cs =>
  let run := cs.takeWhile f
  let rest := cs.dropWhile f
  (List.range (run.length + 1)).map fun j =>
    let k := run.length - j
    (run.take k, run.drop k ++ rest)

/-- Greedy `class+`. -/
def pmany1G (f : Char → Bool) : P Chars := fun cs =>
  (pmanyG f cs).filter fun x => !x.1.isEmpty

/-- Exactly `n` characters of a class. -/
def prepCnt (f : Char → Bool) : Nat → P Chars
  | 0 => ppure []
  | n + 1 =>
    pbind (pch f) fun c => pbind (prepCnt f n) fun l => ppure (c :: l)

/-- Greedy `[0-9]{2,3}`: three digits preferred over two. -/
def pd23 : P Chars := por (prepCnt Char.isDigit 3) (prepCnt Char.isDigit 2)

/-- Greedy `class{n,}`: candidates maximal munch down to `n`. -/
def prepAtLeastG (f : Char → Bool) (n : Nat) : P Chars := fun cs =>
  (pmanyG f cs).filter fun x => n ≤ x.1.length

/-- Greedy `x?`: present preferred over absent. -/
def popt {α : Type} (p : P α) : P (Option α) :=
  por (pbind p fun a => ppure (some a)) (ppure none)

/-- Capture: the characters consumed by the sub-parser. -/
def pcap {α : Type} (p : P α) : P Chars := fun cs =>
  (p cs).map fun ar => (cs.take (cs.length - ar.2.length), ar.2)

/-- Negative lookahead `(?!p)`: zero-width, succeeds iff `p` cannot match. -/
def pnot {α : Type} (p : P α) : P Unit := fun cs =>
  match p cs with
  | [] => [((), cs)]
  | _ => []

/-- Word boundary `\b` placed right after a word character of the pattern:
succeeds iff the next input character is absent or not a word character. -/
def pwbAfterWord : P Unit := fun cs =>
  match cs with
  | [] => [((), [])]
  | c :: _ => if isWordChar c then [] else [((), cs)]

/-- Lazy dot-star before `p` (`.*?p`): shortest gap first, `.` excludes
newline. -/
def plazyDotsGo {α : Type} (p : P α) : Chars → List (α × Chars)
  | [] => p []
  | c :: rest =>
    p (c :: rest) ++ (if c = '\n' then [] else plazyDotsGo p rest)

def plazyDots {α : Type} (p : P α) : P α := fun cs => plazyDotsGo p cs

/-- Greedy dot-star before `p` (`.*p`): longest gap first. -/
def pgreedyDotsGo {α : Type} (p : P α) : Chars → List (α × Chars)
  | [] => p []
  | c :: rest =>
    (if c = '\n' then [] else pgreedyDotsGo p rest) ++ p (c :: rest)

def pgreedyDots {α : Type} (p : P α) : P α := fun cs => pgreedyDotsGo p cs

/-- Greedy `(?:p)*` with fuel (every iteration of our uses consumes ≥ 1
character, so `cs.length` fuel is enough): more iterations preferred. -/
def pstarG {α : Type} (p : P α) : Nat → P (List α)
  | 0 => ppure []
  | fuel + 1 =>
    por
      (pbind p fun a => pbind (pstarG p fuel) fun l => ppure (a :: l))
      (ppure [])

def pstar {α : Type} (p : P α) : P (List α) := fun cs => pstarG p cs.length cs

/-! ## re.search / re.findall / re.sub -/

/-- Leading word-boundary test against the character left of the scan
position (all patterns with a leading `\b` continue with a word
character). -/
def prevNonWord : Option Char → Bool
  | none => true
  | some c => !isWordChar c

/-- `re.search`: try match positions left to right; at each position take
the backtracking engine's preferred candidate.  `wb` demands a leading word
boundary (hoisted out of patterns starting with `\b`).  Returns
(start, end, result). -/
def searchAux {α : Type} (wb : Bool) (p : P α) :
    Option Char → Nat → Chars → Option (Nat × Nat × α)
  | prev, i, [] =>
    match (if !wb || prevNonWord prev then p [] else []) with
    | (a, _) :: _ => some (i, i, a)
    | [] => none
  | prev, i, c :: rest =>
    match (if !wb || prevNonWord prev then p (c :: rest) else []) with
    | (a, r2) :: _ => some (i, i + ((c :: rest).length - r2.length), a)
    | [] => searchAux wb p (some c) (i + 1) rest

def psearch {α : Type} (wb : Bool) (p : P α) (cs : Chars) :
    Option (Nat × Nat × α) :=
  searchAux wb p none 0 cs

/-- Boolean `re.search` (used where only truthiness matters). -/
def psearchB {α : Type} (wb : Bool) (p : P α) (cs : Chars) : Bool :=
  (psearch wb p cs).isSome

/-- `re.findall`: non-overlapping matches, continuing at each match end
(zero-width matches advance one character).  Fuel ≥ `cs.length + 1`. -/
def findallAux {α : Type} (wb : Bool) (p : P α) :
    Option Char → Chars → Nat → List α
  | _, _, 0 => []
  | prev, cs, fuel + 1 =>
    match (if !wb || prevNonWord prev then p cs else []) with
    | (a, rest) :: _ =>
      let n := cs.length - rest.length
      if n = 0 then
        match cs with
        | [] => [a]
        | c :: r => a :: findallAux wb p (some c) r fuel
      else
        a :: findallAux wb p
          (match (cs.take n).getLast? with
            | some c => some c
            | none => prev) rest fuel
    | [] =>
      match cs with
      | [] => []
      | c :: rest => findallAux wb p (some c) rest fuel

def pfindall {α : Type} (wb : Bool) (p : P α) (cs : Chars) : List α :=
  findallAux wb p none cs (cs.length + 1)

/-- `re.sub` with a constant replacement string. -/
def subAux (wb : Bool) (p : P Unit) (repl : Chars) :
    Option Char → Chars → Nat → Chars
  | _, cs, 0 => cs
  | prev, cs, fuel + 1 =>
    match (if !wb || prevNonWord prev then p cs else []) with
    | (_, rest) :: _ =>
      let n := cs.length - rest.length
      if n = 0 then
        match cs with
        | [] => repl
        | c :: r => repl ++ c :: subAux wb p repl (some c) r fuel
      else
        repl ++ subAux wb p repl
          (match (cs.take n).getLast? with
            | some c => some c
            | none => prev) rest fuel
    | [] =>
      match cs with
      | [] => []
      | c :: rest => c :: subAux wb p repl (some c) rest fuel

def psub (wb : Bool) (p : P Unit) (repl : Chars) (cs : Chars) : Chars :=
  subAux wb p repl none cs (cs.length + 1)

/-- `re.sub(r'\s+', ' ', ·)`. -/
def wsPlus : P Unit := pbind (pmany1G isPyWs) fun _ => ppure ()

def collapseWs (cs : Chars) : Chars := psub false wsPlus [' '] cs

/-! ## Data model -/

structure Vitals where
  bp : String
  pr : String
  rbs : String
deriving DecidableEq

structure MedicationEntry where
  medication : String
  dose : String
  duration : String
  medication_when : String
  medication_id : String
deriving DecidableEq

structure InvestigationEntry where
  investigation : String
  investigation_id : String
deriving DecidableEq

structure TemplateEntry where
  template_name : String
  template_id : String
deriving DecidableEq

structure MedicalRecord where
  chief_complaint : String
  consult_summary : String
  vitals_examination : Vitals
  medication_data : List MedicationEntry
  investigations : List InvestigationEntry
  medicine_templates : List TemplateEntry
  super_templates : List TemplateEntry
  advice : String
  follow_up_day : String
  follow_up_mode : String
  visit_type : String
deriving DecidableEq

/-! ## clean_medical_text -/

/-- `\bBP\b(?!\s*:)` (and the PR/RBS analogues). -/
def abbrevPat (s : String) : P Unit :=
  pbind (plitCI s.data) fun _ =>
  pbind pwbAfterWord fun _ =>
  pnot (pbind (pmanyG isPyWs) fun _ => pch (fun c => c = ':'))

def clean_medical_text (s : String) : String :=
  let t := pyStrip (collapseWs s.data)
  let t := psub true (abbrevPat "BP") "BP:".data t
  let t := psub true (abbrevPat "PR") "PR:".data t
  let t := psub true (abbrevPat "RBS") "RBS:".data t
  String.mk t

/-! ## extract_vitals_advanced -/

/-- The class `[:\s]`. -/
def wsColonCh (c : Char) : Bool := c = ':' || isPyWs c

/-- `([0-9]{2,3}/[0-9]{2,3})`. -/
def bpGroup : P Chars :=
  pbind pd23 fun a => pbind (pch (fun c => c = '/')) fun _ =>
  pbind pd23 fun b => ppure (a ++ '/' :: b)

/-- `LABEL[:\s]*(g)`. -/
def labelThen (label : String) (g : P Chars) : P Chars :=
  pbind (plitCI label.data) fun _ => pbind (pmanyG wsColonCh) fun _ => g

def bp_patterns : List (P Chars) :=
  [ labelThen "BP" bpGroup,
    labelThen "Blood Pressure" bpGroup,
    pbind bpGroup fun g => pbind (pmanyG isPyWs) fun _ =>
      pbind (plitCI "mmHg".data) fun _ => ppure g,
    pbind bpGroup fun g => pbind (pmanyG isPyWs) fun _ =>
      pbind (plitCI "mm".data) fun _ => pbind (pmanyG isPyWs) fun _ =>
      pbind (plitCI "Hg".data) fun _ => ppure g,
    pbind (plitCI "His BP is ".data) fun _ => bpGroup,
    pbind (plitCI "Her BP is ".data) fun _ => bpGroup,
    pbind (plitCI "BP was ".data) fun _ => bpGroup,
    pbind (plitCI "Blood pressure is ".data) fun _ => bpGroup,
    pbind (plitCI "systolic".data) fun _ =>
      pbind (pmanyG (fun c => !c.isDigit)) fun _ =>
      pbind pd23 fun a => pbind (pmanyG (fun c => !c.isDigit)) fun _ =>
      pbind (plitCI "diastolic".data) fun _ =>
      pbind (pmanyG (fun c => !c.isDigit)) fun _ =>
      pbind pd23 fun b => ppure (a ++ '/' :: b),
    pbind pd23 fun a => pbind (pmanyG isPyWs) fun _ =>
      pbind (pch (fun c => c = '/')) fun _ => pbind (pmanyG isPyWs) fun _ =>
      pbind pd23 fun b => ppure (a ++ '/' :: b) ]

def pr_patterns : List (P Chars) :=
  [ labelThen "PR" pd23,
    labelThen "Pulse Rate" pd23,
    labelThen "Pulse" pd23,
    labelThen "Heart Rate" pd23,
    labelThen "HR" pd23,
    pbind pd23 fun g => pbind (pmanyG isPyWs) fun _ =>
      pbind (plitCI "bpm".data) fun _ => ppure g,
    pbind (plitCI "Pulse Rate is ".data) fun _ => pd23,
    pbind (plitCI "His PR is ".data) fun _ => pd23,
    pbind (plitCI "Her PR is ".data) fun _ => pd23,
    pbind (plitCI "PR was ".data) fun _ => pd23,
    pbind (plitCI "pulse".data) fun _ => plazyDots pd23 ]

def rbs_patterns : List (P Chars) :=
  [ labelThen "RBS" pd23,
    labelThen "Random Blood Sugar" pd23,
    labelThen "Blood Sugar" pd23,
    pbind pd23 fun g => pbind (pmanyG isPyWs) fun _ =>
      pbind (plitCI "mg/dL".data) fun _ => ppure g,
    pbind pd23 fun g => pbind (pmanyG isPyWs) fun _ =>
      pbind (plitCI "mg".data) fun _ => pbind (pmanyG isPyWs) fun _ =>
      pbind (pch (fun c => c = '/')) fun _ => pbind (pmanyG isPyWs) fun _ =>
      pbind (plitCI "dL".data) fun _ => ppure g,
    pbind (plitCI "RBS is ".data) fun _ => pd23,
    pbind (plitCI "Random Blood Sugar is ".data) fun _ => pd23,
    labelThen "Blood glucose" pd23,
    labelThen "glucose level" pd23,
    pbind (plitCI "sugar".data) fun _ => plazyDots pd23 ]

/-- First pattern of the list that matches anywhere wins. -/
def searchFirst (pats : List (P Chars)) (cs : Chars) : Option Chars :=
  match pats with
  | [] => none
  | p :: rest =>
    match psearch false p cs with
    | some x => some x.2.2
    | none => searchFirst rest cs

def extract_vitals_advanced (text : String) : Vitals :=
  let cs := text.data
  { bp := String.mk ((searchFirst bp_patterns cs).getD [])
    pr := String.mk ((searchFirst pr_patterns cs).getD [])
    rbs := String.mk ((searchFirst rbs_patterns cs).getD []) }

/-! ## remove_vitals_from_text -/

/-- `LABEL[:\s]*{value}` (the value is `re.escape`d in the source; our
values contain only digits and `/`, on which escaping is the identity). -/
def labelValPat (label : String) (v : Chars) : P Unit :=
  pbind (plitCI label.data) fun _ => pbind (pmanyG wsColonCh) fun _ =>
  plitCI v

/-- `{value}\s*UNIT`. -/
def valUnitPat (v : Chars) (unit : String) : P Unit :=
  pbind (plitCI v) fun _ => pbind (pmanyG isPyWs) fun _ =>
  plitCI unit.data

def remove_vitals_from_text (text : String) (vitals : Vitals) : String :=
  let t := text.data
  let t := if vitals.bp ≠ "" then
      let v := vitals.bp.data
      let t := psub false (labelValPat "BP" v) [] t
      let t := psub false (labelValPat "Blood Pressure" v) [] t
      psub false (valUnitPat v "mmHg") [] t
    else t
  let t := if vitals.pr ≠ "" then
      let v := vitals.pr.data
      let t := psub false (labelValPat "PR" v) [] t
      let t := psub false (labelValPat "Pulse Rate" v) [] t
      psub false (valUnitPat v "bpm") [] t
    else t
  let t := if vitals.rbs ≠ "" then
      let v := vitals.rbs.data
      let t := psub false (labelValPat "RBS" v) [] t
      let t := psub false (labelValPat "Random Blood Sugar" v) [] t
      psub false (valUnitPat v "mg/dL") [] t
    else t
  String.mk (pyStrip (collapseWs t))

/-! ## extract_chief_complaint_advanced -/

/-- `([^.]+)` (greedy, at the end of each complaint pattern). -/
def sentCap : P Chars := pmany1G (fun c => !(c = '.'))

/-- The optional-final-letter literal `words?`-style pieces. -/
def poptCh (f : Char → Bool) : P (Option Char) := popt (pch f)

def chief_patterns : List (P Chars) :=
  [ pbind (plitCI "complain".data) fun _ => pbind (poptCh (fun c => ciEq c 's')) fun _ =>
      pbind (plitCI " of ".data) fun _ => sentCap,
    pbind (plitCI "came with complaint".data) fun _ => pbind (poptCh (fun c => ciEq c 's')) fun _ =>
      pbind (plitCI " of ".data) fun _ => sentCap,
    pbind (plitCI "presents with ".data) fun _ => sentCap,
    pbind (plitCI "presented with ".data) fun _ => sentCap,
    pbind (plitCI "main concern is ".data) fun _ => sentCap,
    labelThen "chief complaint" sentCap,
    labelThen "c/o" sentCap,
    labelThen "presenting complaint" sentCap,
    pbind (plitCI "patient reports ".data) fun _ => sentCap,
    pbind (plitCI "suffering from ".data) fun _ => sentCap,
    pbind (plitCI "history of ".data) fun _ => sentCap,
    pbind (plitCI "came for ".data) fun _ => sentCap,
    pbind (plitCI "visited for ".data) fun _ => sentCap ]

/-- `BP[^,]*,?|PR[^,]*,?|RBS[^,]*,?` — strips loose vitals references. -/
def vitalsRefBranch (label : String) : P Unit :=
  pbind (plitCI label.data) fun _ =>
  pbind (pmanyG (fun c => !(c = ','))) fun _ =>
  pbind (poptCh (fun c => c = ',')) fun _ => ppure ()

def vitalsRefPat : P Unit :=
  por (vitalsRefBranch "BP") (por (vitalsRefBranch "PR") (vitalsRefBranch "RBS"))

/-- Post-processing applied to a raw complaint capture. -/
def cleanComplaint (cap : Chars) : Chars :=
  let c := pyStrip cap
  let c := collapseWs c
  let c := rstripChars ['.', ','] c
  pyStrip (psub false vitalsRefPat [] c)

/-- The source keeps trying later patterns when the cleaned capture is too
short (the `return` sits under `if len(complaint) > 10`). -/
def chiefLoop : List (P Chars) → Chars → Option Chars
  | [], _ => none
  | p :: rest, cs =>
    match psearch false p cs with
    | some x =>
      let c := cleanComplaint x.2.2
      if 10 < c.length then some c else chiefLoop rest cs
    | none => chiefLoop rest cs

def extract_chief_complaint_advanced (text : String) : String :=
  match chiefLoop chief_patterns text.data with
  | some c => String.mk c
  | none => "General medical consultation"

/-! ## extract_consult_summary_advanced -/

/-- `KEYWORD[^.]*\.([^.]+)` (three of the examination patterns). -/
def examDotPat (kw : String) : P Chars :=
  pbind (plitCI kw.data) fun _ =>
  pbind (pmanyG (fun c => !(c = '.'))) fun _ =>
  pbind (pch (fun c => c = '.')) fun _ => sentCap

def exam_patterns : List (P Chars) :=
  [ examDotPat "on examination",
    examDotPat "physical examination",
    examDotPat "clinical findings",
    pbind (plitCI "examination revealed ".data) fun _ => sentCap,
    pbind (plitCI "findings include ".data) fun _ => sentCap,
    pbind (plitCI "assessment showed ".data) fun _ => sentCap,
    pbind (plitCI "tests positive for ".data) fun _ => sentCap,
    pbind (plitCI "tests negative for ".data) fun _ => sentCap,
    labelThen "impression" sentCap,
    labelThen "diagnosis" sentCap,
    pbind (plitCI "likely ".data) fun _ => sentCap,
    pbind (plitCI "consistent with ".data) fun _ => sentCap,
    pbind (plitCI "appears to have ".data) fun _ => sentCap ]

/-- Case-insensitive literal alternation capturing the matched text. -/
def paltCIc (ws : List String) : P Chars :=
  match ws with
  | [] => pfail
  | w :: rest => por (plitCIc w.data) (paltCIc rest)

def condition_patterns : List (P Chars) :=
  [ pbind (plitCI "appear".data) fun _ => pbind (poptCh (fun c => ciEq c 's')) fun _ =>
      pbind (pmany1G isPyWs) fun _ =>
      paltCIc ["anxious", "nervous", "distressed", "comfortable", "stable"],
    pbind (paltCIc ["poor", "bad", "good", "adequate"]) fun a =>
      pbind (pmany1G isPyWs) fun _ =>
      pbind (paltCIc ["sleep", "appetite"]) fun b => ppure (a ++ ' ' :: b),
    paltCIc ["chest pain", "chest discomfort", "abdominal pain"],
    paltCIc ["shortness of breath", "breathlessness", "dyspnea"],
    paltCIc ["nausea", "vomiting", "diarrhea", "constipation"],
    paltCIc ["fever", "headache", "dizziness", "fatigue"],
    pbind (paltCIc ["mild", "moderate", "severe"]) fun a =>
      pbind (pmany1G isPyWs) fun _ => pbind sentCap fun b => ppure (a ++ ' ' :: b),
    pbind (paltCIc ["positive", "negative"]) fun a =>
      pbind (pmany1G isPyWs) fun _ => pbind (plitCI "for".data) fun _ =>
      pbind (pmany1G isPyWs) fun _ => pbind sentCap fun b => ppure (a ++ ' ' :: b) ]

/-- Examination findings, cleaned; the length filter is applied in place. -/
def consultExamParts (cs : Chars) : List String :=
  (exam_patterns.flatMap fun p => pfindall false p cs).filterMap fun m =>
    let finding := pyStrip m
    let finding := pyStrip (psub false vitalsRefPat [] finding)
    let finding := collapseWs finding
    if 5 < finding.length then some (String.mk finding) else none

/-- Condition keyword hits, each contributing a "Patient …" sentence. -/
def consultCondParts (cs : Chars) : List String :=
  (condition_patterns.flatMap fun p => pfindall false p cs).filterMap fun m =>
    let condition := pyStrip m
    if 3 < condition.length then
      some (String.mk ("Patient ".data ++ condition))
    else none

def consultParts (cs : Chars) : List String :=
  consultExamParts cs ++ consultCondParts cs

def consultFallback : String :=
  "Clinical examination completed. Patient evaluated thoroughly."

/-- The `vitals` argument is accepted but unused, as in the source. -/
def extract_consult_summary_advanced (text : String) (_vitals : Vitals) :
    String :=
  let parts := consultParts text.data
  if parts.isEmpty then consultFallback
  else String.intercalate ". " (dedupFirst parts) ++ "."

/-! ## extract_medications_advanced -/

structure MedRow where
  names : List String
  default_dose : String
  dose_pattern : String
  duration : String
  med_when : String

def medication_db : List MedRow :=
  [ ⟨["Paracetamol", "Acetaminophen"], "500mg", "1-0-1", "5 days", "After food"⟩,
    ⟨["Metformin"], "500mg", "1-0-1", "ongoing", "Before food"⟩,
    ⟨["Aspirin"], "75mg", "0-0-1", "ongoing", "After food"⟩,
    ⟨["Atorvastatin"], "10mg", "0-0-1", "ongoing", "After dinner"⟩,
    ⟨["Amlodipine"], "5mg", "1-0-0", "ongoing", "After breakfast"⟩,
    ⟨["Pantoprazole", "Omeprazole"], "40mg", "1-0-0", "30 days", "Before food"⟩,
    ⟨["Insulin"], "As prescribed", "As directed", "ongoing", "Before meals"⟩,
    ⟨["Ondansetron"], "4mg", "1-1-1", "3 days", "Before food"⟩,
    ⟨["Azithromycin"], "500mg", "1-0-0", "3 days", "After food"⟩,
    ⟨["Ciprofloxacin"], "500mg", "1-0-1", "7 days", "After food"⟩,
    ⟨["Amoxicillin"], "500mg", "1-1-1", "7 days", "After food"⟩,
    ⟨["Dolo", "Dolo 650"], "650mg", "1-1-1", "3 days", "After food"⟩,
    ⟨["Telmisartan"], "40mg", "1-0-0", "ongoing", "Before food"⟩,
    ⟨["Losartan"], "50mg", "1-0-0", "ongoing", "Before food"⟩ ]

/-- The dose group `([0-9]+\s*mg)`, capture reassembled from its parts. -/
def doseGrp : P Chars :=
  pbind (pmany1G Char.isDigit) fun ds => pbind (pmanyG isPyWs) fun ws =>
  pbind (plitCIc "mg".data) fun mg => ppure (ds ++ ws ++ mg)

/-- The seven surface patterns tried per medication synonym; the flag says
whether the pattern starts with `\b`; the result is group 1 when the
pattern has a (participating) group. -/
def med_patterns (name : Chars) : List (Bool × P (Option Chars)) :=
  [ (true, pbind (plitCI name) fun _ => pbind (pmanyG isPyWs) fun _ =>
      popt doseGrp),
    (false, pbind (plitCI "Tab".data) fun _ => pbind (pmany1G isPyWs) fun _ =>
      pbind (plitCI name) fun _ => pbind (pmanyG isPyWs) fun _ => popt doseGrp),
    (false, pbind (plitCI name) fun _ => pbind (pmany1G isPyWs) fun _ =>
      pbind doseGrp fun d => ppure (some d)),
    (false, pbind (plitCI name) fun _ => pbind (pmany1G isPyWs) fun _ =>
      pbind (plitCI "tablet".data) fun _ => ppure none),
    (false, pbind (plitCI "started".data) fun _ =>
      plazyDots (pbind (plitCI name) fun _ => ppure none)),
    (false, pbind (plitCI "prescribed".data) fun _ =>
      plazyDots (pbind (plitCI name) fun _ => ppure none)),
    (false, pbind (plitCI "given".data) fun _ =>
      plazyDots (pbind (plitCI name) fun _ => ppure none)) ]

def medFindLoop :
    List (Bool × P (Option Chars)) → Chars → Option (Nat × Nat × Option Chars)
  | [], _ => none
  | (wb, p) :: rest, cs =>
    match psearch wb p cs with
    | some x => some x
    | none => medFindLoop rest cs

def findMed (name : Chars) (cs : Chars) : Option (Nat × Nat × Option Chars) :=
  medFindLoop (med_patterns name) cs

/-- `text[max(0, start-50) : end+100]`. -/
def ctxWindow (cs : Chars) (s e : Nat) : Chars :=
  let a := s - 50
  (cs.drop a).take (e + 100 - a)

/-! ### extract_dosage_pattern -/

/-- `([0-9])-([0-9])-([0-9])`, result `g1-g2-g3`. -/
def dosePat1 : P Chars :=
  pbind (pch Char.isDigit) fun a => pbind (pch (fun c => c = '-')) fun _ =>
  pbind (pch Char.isDigit) fun b => pbind (pch (fun c => c = '-')) fun _ =>
  pbind (pch Char.isDigit) fun c => ppure [a, '-', b, '-', c]

/-- `\s*(?:a\s*)?day`. -/
def optADay : P Unit :=
  pbind (pmanyG isPyWs) fun _ =>
  pbind (popt (pbind (plitCI "a".data) fun _ =>
    pbind (pmanyG isPyWs) fun _ => ppure ())) fun _ =>
  plitCI "day".data

/-- `([0-9])\s*times?\s*(?:a\s*)?day`, result the digit. -/
def dosePat2 : P Chars :=
  pbind (pch Char.isDigit) fun d => pbind (pmanyG isPyWs) fun _ =>
  pbind (plitCI "time".data) fun _ => pbind (poptCh (fun c => ciEq c 's')) fun _ =>
  pbind optADay fun _ => ppure [d]

def wordDayPat (w : String) : P Unit :=
  pbind (plitCI w.data) fun _ => optADay

def threeTimesPat : P Unit :=
  pbind (plitCI "three".data) fun _ => pbind (pmanyG isPyWs) fun _ =>
  pbind (plitCI "times".data) fun _ => optADay

/-- The if/elif chain the source applies to a word-pattern match's
`group(0)`; when no branch fires the pattern loop simply continues. -/
def doseWordBranch (g0 : Chars) : Option String :=
  let g0l := lowerL g0
  if pyIn "once".data g0l then some "1-0-0"
  else if pyIn "twice".data g0l then some "1-0-1"
  else if pyIn "thrice".data g0l || pyIn "three times".data g0l then some "1-1-1"
  else none

def doseWordLoop : List (P Unit) → Chars → Option String
  | [], _ => none
  | p :: rest, cs =>
    match psearch false (pcap p) cs with
    | some x =>
      match doseWordBranch x.2.2 with
      | some r => some r
      | none => doseWordLoop rest cs
    | none => doseWordLoop rest cs

def extract_dosage_pattern (cs : Chars) : Except Unit (Option String) :=
  match psearch false dosePat1 cs with
  | some x => .ok (some (String.mk x.2.2))
  | none =>
    match psearch false dosePat2 cs with
    | some x =>
      match pyInt x.2.2 with
      | none => .error ()
      | some times =>
        .ok (some (if times = 1 then "1-0-0"
          else if times = 2 then "1-0-1"
          else if times = 3 then "1-1-1"
          else toString times ++ " times daily"))
    | none =>
      .ok (doseWordLoop
        [wordDayPat "once", wordDayPat "twice", wordDayPat "thrice",
         threeTimesPat] cs)

/-! ### extract_duration_pattern -/

def unitAlt : P Chars := paltCIc ["day", "week", "month"]

/-- `([0-9]+)\s*(day|week|month)s?`. -/
def durCore : P (Chars × Chars) :=
  pbind (pmany1G Char.isDigit) fun num => pbind (pmanyG isPyWs) fun _ =>
  pbind unitAlt fun u => pbind (poptCh (fun c => ciEq c 's')) fun _ =>
  ppure (num, u)

def durPat1 : P (Chars × Chars) :=
  pbind (plitCI "for".data) fun _ => pbind (pmanyG isPyWs) fun _ => durCore

/-- `f"{g1} {g2}s" if int(g1) > 1 else f"{g1} {g2}"`. -/
def formatDuration (num u : Chars) : Except Unit Chars :=
  match pyInt num with
  | none => .error ()
  | some n => .ok (if 1 < n then num ++ ' ' :: (u ++ ['s']) else num ++ ' ' :: u)

def durLitPats : List (P Chars) :=
  [plitCIc "ongoing".data, plitCIc "continue".data, plitCIc "as needed".data,
   plitCIc "indefinitely".data]

def extract_duration_pattern (cs : Chars) : Except Unit (Option String) :=
  match psearch false durPat1 cs with
  | some x =>
    match formatDuration x.2.2.1 x.2.2.2 with
    | .error e => .error e
    | .ok r => .ok (some (String.mk r))
  | none =>
    match psearch false durCore cs with
    | some x =>
      match formatDuration x.2.2.1 x.2.2.2 with
      | .error e => .error e
      | .ok r => .ok (some (String.mk r))
    | none =>
      .ok ((searchFirst durLitPats cs).map String.mk)

/-! ### extract_timing_pattern -/

/-- `(?:food|meals?|eating)`. -/
def foodMealsEating : P Unit :=
  por (plitCI "food".data)
    (por (pbind (plitCI "meal".data) fun _ =>
        pbind (poptCh (fun c => ciEq c 's')) fun _ => ppure ())
      (plitCI "eating".data))

def timing_patterns : List (P Chars) :=
  [ pcap (pbind (plitCI "before".data) fun _ => pbind (pmanyG isPyWs) fun _ =>
      foodMealsEating),
    pcap (pbind (plitCI "after".data) fun _ => pbind (pmanyG isPyWs) fun _ =>
      foodMealsEating),
    pcap (pbind (plitCI "with".data) fun _ => pbind (pmanyG isPyWs) fun _ =>
      por (plitCI "food".data)
        (pbind (plitCI "meal".data) fun _ =>
          pbind (poptCh (fun c => ciEq c 's')) fun _ => ppure ())),
    pcap (pbind (plitCI "empty".data) fun _ => pbind (pmanyG isPyWs) fun _ =>
      plitCI "stomach".data),
    pcap (pbind (plitCI "at".data) fun _ => pbind (pmanyG isPyWs) fun _ =>
      plitCI "night".data),
    pcap (pbind (plitCI "in".data) fun _ => pbind (pmanyG isPyWs) fun _ =>
      pbind (plitCI "the".data) fun _ => pbind (pmanyG isPyWs) fun _ =>
      plitCI "morning".data),
    pcap (pbind (plitCI "before".data) fun _ => pbind (pmanyG isPyWs) fun _ =>
      plitCI "breakfast".data),
    pcap (pbind (plitCI "after".data) fun _ => pbind (pmanyG isPyWs) fun _ =>
      plitCI "dinner".data) ]

def extract_timing_pattern (cs : Chars) : Option String :=
  (searchFirst timing_patterns cs).map fun g0 => String.mk (pyTitle g0)

/-! ### the medication tiers -/

def medPairs : List (MedRow × String) :=
  medication_db.flatMap fun row => row.names.map fun n => (row, n)

/-- The entry built for one matched (row, synonym): dose, duration and
timing overrides are attempted on the context window, falling back to the
table defaults; `medication_id` is filled in afterwards by position. -/
def tier1MedEntry (row : MedRow) (n : String) (cs : Chars) (s e : Nat)
    (capOpt : Option Chars) : Except Unit MedicationEntry :=
  let doseFound := match capOpt with
    | some d => d
    | none => row.default_dose.data
  let ctx := ctxWindow cs s e
  match extract_dosage_pattern ctx with
  | .error er => .error er
  | .ok dp =>
    match extract_duration_pattern ctx with
    | .error er => .error er
    | .ok du =>
      let tm := extract_timing_pattern ctx
      .ok { medication := String.mk (n.data ++ ' ' :: doseFound)
            dose := dp.getD row.dose_pattern
            duration := du.getD row.duration
            medication_when := tm.getD row.med_when
            medication_id := "" }

/-- Tier 1: one entry per (row, synonym) whose pattern family matches. -/
def tier1Meds : List (MedRow × String) → Chars → Except Unit (List MedicationEntry)
  | [], _ => .ok []
  | (row, n) :: rest, cs =>
    match findMed n.data cs with
    | none => tier1Meds rest cs
    | some (s, e, capOpt) =>
      match tier1MedEntry row n cs s e capOpt with
      | .error er => .error er
      | .ok entry =>
        match tier1Meds rest cs with
        | .error er => .error er
        | .ok restE => .ok (entry :: restE)

/-- `[A-Za-z]+(?:\s+[A-Za-z]+)*`. -/
def alphaWords : P Chars :=
  pbind (pmany1G Char.isAlpha) fun w =>
  pbind (pstar (pbind (pmany1G isPyWs) fun s =>
    pbind (pmany1G Char.isAlpha) fun w2 => ppure (s ++ w2))) fun ts =>
  ppure (w ++ ts.join)

/-- The five generic patterns, in source order; the dose component is
`none` when the pattern has no dose group or it did not participate. -/
def generic_med_cands (cs : Chars) : List (Chars × Option Chars) :=
  pfindall false (pbind (plitCI "Tab".data) fun _ =>
    pbind (pmany1G isPyWs) fun _ => pbind alphaWords fun nm =>
    pbind (pmanyG isPyWs) fun _ => pbind (popt doseGrp) fun d =>
    ppure (nm, d)) cs
  ++ ((pfindall false (pbind (plitCI "Syrup".data) fun _ =>
      pbind (pmany1G isPyWs) fun _ => alphaWords) cs).map fun nm => (nm, none))
  ++ ((pfindall false (pbind (plitCI "Injection".data) fun _ =>
      pbind (pmany1G isPyWs) fun _ => alphaWords) cs).map fun nm => (nm, none))
  ++ ((pfindall false (pbind (plitCI "prescribed".data) fun _ =>
      pbind (pmany1G isPyWs) fun _ => alphaWords) cs).map fun nm => (nm, none))
  ++ ((pfindall false (pbind (plitCI "started on".data) fun _ =>
      pbind (pmany1G isPyWs) fun _ => alphaWords) cs).map fun nm => (nm, none))

/-- Tier 2: a candidate is skipped when its (lowercased) name occurs inside
an already-collected medication string. -/
def tier2MedsFold (acc : List MedicationEntry) :
    List (Chars × Option Chars) → List MedicationEntry
  | [] => acc
  | (nm, d) :: rest =>
    let med_name := pyStrip nm
    let dose := match d with
      | some dd => dd
      | none => "As prescribed".data
    if acc.any (fun m => pyIn (lowerL med_name) (lowerL m.medication.data)) then
      tier2MedsFold acc rest
    else
      tier2MedsFold (acc ++
        [{ medication := String.mk (med_name ++ ' ' :: dose)
           dose := "1-0-1", duration := "As directed"
           medication_when := "After food", medication_id := "" }]) rest

/-- Sequential ids: the source increments `medication_id` on every append,
so the id is the 1-based position in the final list. -/
def numberMeds (l : List MedicationEntry) : List MedicationEntry :=
  l.enum.map fun im => { im.2 with medication_id := toString (im.1 + 1) }

def extract_medications_advanced (text : String) :
    Except Unit (List MedicationEntry) :=
  let cs := text.data
  match tier1Meds medPairs cs with
  | .error er => .error er
  | .ok t1 => .ok (numberMeds (tier2MedsFold t1 (generic_med_cands cs)))

/-! ## extract_investigations_advanced -/

structure InvRow where
  names : List String
  id : String

def investigation_db : List InvRow :=
  [ ⟨["CBC", "Complete Blood Count", "Complete Blood Picture", "CBP"], "127"⟩,
    ⟨["HbA1c", "Glycated Hemoglobin"], "1"⟩,
    ⟨["Lipid Profile", "Lipid Panel"], "329"⟩,
    ⟨["Liver Function Test", "LFT"], "234"⟩,
    ⟨["Kidney Function Test", "KFT", "Renal Function Test"], "156"⟩,
    ⟨["Thyroid Function Test", "TFT"], "89"⟩,
    ⟨["ECG", "EKG", "Electrocardiogram"], "45"⟩,
    ⟨["Chest X-Ray", "CXR", "Chest X Ray"], "78"⟩,
    ⟨["Urine Routine", "Urine Analysis", "Urinalysis"], "12"⟩,
    ⟨["Blood Sugar", "Fasting Blood Sugar", "FBS"], "23"⟩,
    ⟨["Postprandial Blood Sugar", "PPBS"], "24"⟩,
    ⟨["Creatinine", "Serum Creatinine"], "34"⟩,
    ⟨["Urea", "Blood Urea"], "35"⟩,
    ⟨["Hemoglobin", "Hb"], "56"⟩,
    ⟨["ESR", "Erythrocyte Sedimentation Rate"], "67"⟩,
    ⟨["CRP", "C-Reactive Protein"], "78"⟩,
    ⟨["Vitamin D", "25-OH Vitamin D"], "89"⟩,
    ⟨["Vitamin B12"], "90"⟩,
    ⟨["Iron Studies", "Serum Iron"], "91"⟩,
    ⟨["Ultrasound", "USG"], "102"⟩,
    ⟨["CT Scan", "Computed Tomography"], "103"⟩,
    ⟨["MRI", "Magnetic Resonance Imaging"], "104"⟩,
    ⟨["Stool Routine", "Stool Examination"], "105"⟩,
    ⟨["Culture", "Blood Culture", "Urine Culture"], "106"⟩,
    ⟨["Dengue", "Dengue NS1", "Dengue IgM"], "107"⟩,
    ⟨["Malaria", "Malaria Test", "MP"], "108"⟩,
    ⟨["Typhoid", "Widal Test"], "109"⟩,
    ⟨["HIV", "HIV Test"], "110"⟩,
    ⟨["HBsAg", "Hepatitis B"], "111"⟩,
    ⟨["HCV", "Hepatitis C"], "112"⟩ ]

/-- `\b{name}\b` found anywhere. -/
def invNameFound (n : String) (cs : Chars) : Bool :=
  psearchB true (pbind (plitCI n.data) fun _ => pwbAfterWord) cs

/-- Tier 1: one entry per table row with any matching synonym, named by
the row's first synonym. -/
def tier1Invs (cs : Chars) : List InvestigationEntry :=
  investigation_db.filterMap fun row =>
    if row.names.any (fun n => invNameFound n cs) then
      some { investigation := row.names.headD ""
             investigation_id := row.id }
    else none

/-- `KEYWORD\s*([^.]+)` with an optional trailing letter on the keyword
(`ordered?` matches "ordere" or "ordered", and so on). -/
def kwCap (kw : String) (d : Option Char) : P Chars :=
  pbind (plitCI kw.data) fun _ =>
  pbind (match d with
    | some c => pbind (poptCh (fun x => ciEq x c)) fun _ => ppure ()
    | none => ppure ()) fun _ =>
  pbind (pmanyG isPyWs) fun _ => sentCap

def investigation_keywords : List (P Chars) :=
  [ kwCap "ordere" (some 'd'), kwCap "advise" (some 'd'),
    kwCap "requeste" (some 'd'), kwCap "sent for" none,
    kwCap "refer for" none, kwCap "check" none, kwCap "evaluate" none,
    kwCap "investigate" none, kwCap "test for" none,
    kwCap "screening for" none, kwCap "lab work" none,
    kwCap "blood work" none ]

/-- `\b[A-Z]{2,}\b` (case sensitive). -/
def capsRun : P Chars :=
  pbind (prepAtLeastG Char.isUpper 2) fun r => pbind pwbAfterWord fun _ =>
  ppure r

/-- `[A-Z][a-z]+`. -/
def capWordP : P Chars :=
  pbind (pch Char.isUpper) fun u => pbind (pmany1G Char.isLower) fun ls =>
  ppure (u :: ls)

/-- `\b[A-Z][a-z]+(?:\s+[A-Z][a-z]+)*\b`. -/
def titleRun : P Chars :=
  pbind capWordP fun w =>
  pbind (pstar (pbind (pmany1G isPyWs) fun s =>
    pbind capWordP fun w2 => ppure (s ++ w2))) fun ts =>
  pbind pwbAfterWord fun _ => ppure (w ++ ts.join)

def potentialTestPat : P Chars := por capsRun titleRun

/-- Candidate generic test names, in discovery order. -/
def invCands (cs : Chars) : List Chars :=
  investigation_keywords.flatMap fun k =>
    (pfindall false k cs).flatMap fun m => pfindall true potentialTestPat m

/-- Tier 2: skip short candidates and candidates occurring (lowercased) in
an already-collected investigation name; fresh sequential ids. -/
def tier2InvFold (acc : List InvestigationEntry) (nid : Nat) :
    List Chars → List InvestigationEntry
  | [] => acc
  | t :: rest =>
    let t2 := pyStrip t
    if 2 < t2.length &&
        !(acc.any fun inv => pyIn (lowerL t2) (lowerL inv.investigation.data)) then
      tier2InvFold (acc ++
        [{ investigation := String.mk t2, investigation_id := toString nid }])
        (nid + 1) rest
    else tier2InvFold acc nid rest

def extract_investigations_advanced (text : String) : List InvestigationEntry :=
  let cs := text.data
  tier2InvFold (tier1Invs cs) 1 (invCands cs)

/-! ## template extractors -/

/-- `w1\s*w2\s*…\s*([^.]+)`. -/
def seqWordsCap (ws : List String) : P Chars :=
  match ws with
  | [] => sentCap
  | w :: rest =>
    pbind (plitCI w.data) fun _ => pbind (pmanyG isPyWs) fun _ =>
    seqWordsCap rest

def medicine_template_patterns : List (P Chars) :=
  [ seqWordsCap ["macro"], seqWordsCap ["template"],
    seqWordsCap ["protocol", "for"], seqWordsCap ["management", "plan", "for"],
    seqWordsCap ["standard", "care", "for"],
    seqWordsCap ["follow", "guidelines", "for"] ]

def super_template_patterns : List (P Chars) :=
  [ seqWordsCap ["super", "macro"], seqWordsCap ["comprehensive", "protocol"],
    seqWordsCap ["advanced", "template"],
    seqWordsCap ["complete", "care", "plan"],
    seqWordsCap ["integrated", "management"],
    seqWordsCap ["master", "protocol"] ]

def templatesFoldAux (tid : Nat) : List Chars → List TemplateEntry
  | [] => []
  | m :: rest =>
    let nm := pyTitle (pyStrip m)
    if 3 < nm.length then
      { template_name := String.mk nm, template_id := toString tid } ::
        templatesFoldAux (tid + 1) rest
    else templatesFoldAux tid rest

/-- The source stores the id under `medicine_template_id` /
`super_template_id` respectively; both entry shapes are otherwise
identical, modelled by `TemplateEntry`. -/
def extract_medicine_templates_advanced (text : String) : List TemplateEntry :=
  templatesFoldAux 1
    (medicine_template_patterns.flatMap fun p => pfindall false p text.data)

def extract_super_templates_advanced (text : String) : List TemplateEntry :=
  templatesFoldAux 1
    (super_template_patterns.flatMap fun p => pfindall false p text.data)

/-! ## extract_advice_advanced -/

/-- `([^.]+\.)`. -/
def adviceCapDot : P Chars :=
  pbind (pmany1G (fun c => !(c = '.'))) fun b =>
  pbind (pch (fun c => c = '.')) fun _ => ppure (b ++ ['.'])

def advice_patterns : List (P Chars) :=
  [ pbind (plitCI "advice".data) fun _ =>
      pbind (poptCh (fun c => ciEq c 'd' || c = ':')) fun _ =>
      pbind (pmanyG isPyWs) fun _ => adviceCapDot,
    pbind (plitCI "recommend".data) fun _ =>
      pbind (poptCh (fun c => ciEq c 'e' || ciEq c 'd')) fun _ =>
      pbind (pmanyG isPyWs) fun _ => adviceCapDot,
    pbind (plitCI "suggest".data) fun _ =>
      pbind (poptCh (fun c => ciEq c 'e' || ciEq c 'd')) fun _ =>
      pbind (pmanyG isPyWs) fun _ => adviceCapDot,
    pbind (plitCI "patient advised".data) fun _ =>
      pbind (pmanyG isPyWs) fun _ => adviceCapDot,
    pbind (plitCI "instruction".data) fun _ =>
      pbind (poptCh (fun c => ciEq c 's')) fun _ =>
      pbind (pmanyG isPyWs) fun _ => adviceCapDot,
    pbind (plitCI "plan".data) fun _ =>
      pbind (pmanyG wsColonCh) fun _ => adviceCapDot,
    pbind (plitCI "discharge".data) fun _ =>
      pbind (poptCh (fun c => ciEq c 'd')) fun _ =>
      pbind (pmanyG isPyWs) fun _ => pbind (plitCI "with".data) fun _ =>
      pbind (pmanyG isPyWs) fun _ => adviceCapDot,
    pbind (plitCI "follow".data) fun _ =>
      pbind (pmanyG wsColonCh) fun _ => adviceCapDot,
    pbind (plitCI "continue".data) fun _ =>
      pbind (pmanyG isPyWs) fun _ => adviceCapDot,
    pbind (plitCI "maintain".data) fun _ =>
      pbind (pmanyG isPyWs) fun _ => adviceCapDot,
    pbind (plitCI "avoid".data) fun _ =>
      pbind (pmanyG isPyWs) fun _ => adviceCapDot,
    pbind (plitCI "take".data) fun _ =>
      pbind (pmanyG isPyWs) fun _ => adviceCapDot ]

def adviceExplicitParts (cs : Chars) : List String :=
  (advice_patterns.flatMap fun p => pfindall false p cs).filterMap fun m =>
    let a := pyStrip m
    let a := pyStrip (psub false vitalsRefPat [] a)
    if 10 < a.length then some (String.mk a) else none

def adviceBoolParts (cs : Chars) : List String :=
  (if psearchB false (pbind (plitCI "medication".data) fun _ =>
      pgreedyDots (paltCIc ["schedule", "regularly", "as prescribed"])) cs
    then ["Follow medication schedule as prescribed."] else [])
  ++ (if psearchB false (pbind (paltCIc ["monitor", "check", "watch"]) fun _ =>
      pgreedyDots (pbind (plitCI "symptom".data) fun _ =>
        poptCh (fun c => ciEq c 's'))) cs
    then ["Monitor symptoms closely."] else [])
  ++ (if psearchB false (paltCIc ["diet", "dietary", "food", "eating"]) cs
    then ["Follow dietary recommendations."] else [])
  ++ (if psearchB false (paltCIc ["exercise", "physical activity", "walk"]) cs
    then ["Maintain regular physical activity."] else [])
  ++ (if psearchB false (paltCIc ["rest", "adequate sleep"]) cs
    then ["Take adequate rest and maintain proper sleep."] else [])
  ++ (if psearchB false (paltCIc ["hydration", "fluid"]) cs
    then ["Maintain proper hydration."] else [])

def advice_parts (cs : Chars) : List String :=
  adviceExplicitParts cs ++ adviceBoolParts cs

def adviceFallback : String :=
  "Continue current treatment and follow up as scheduled."

def extract_advice_advanced (text : String) : String :=
  let parts := advice_parts text.data
  if parts.isEmpty then adviceFallback
  else String.intercalate " " (dedupFirst parts)

/-! ## follow-up day / mode / visit type -/

/-- `KW ([0-9]+)\s*(day|week|month)s?`. -/
def followCore (kw : String) : P (Chars × Chars) :=
  pbind (plitCI kw.data) fun _ => pbind (pmany1G Char.isDigit) fun num =>
  pbind (pmanyG isPyWs) fun _ => pbind unitAlt fun u =>
  pbind (poptCh (fun c => ciEq c 's')) fun _ => ppure (num, u)

def follow_up_patterns : List (P (Chars × Chars)) :=
  [ followCore "follow up in ", followCore "next visit in ",
    followCore "return after ", followCore "see again in ",
    followCore "review in ", followCore "come back in ",
    followCore "appointment in " ]

def followSearch : List (P (Chars × Chars)) → Chars → Option (Chars × Chars)
  | [], _ => none
  | p :: rest, cs =>
    match psearch false p cs with
    | some x => some x.2.2
    | none => followSearch rest cs

def extract_follow_up_advanced (text : String) : Except Unit String :=
  match followSearch follow_up_patterns text.data with
  | none => .ok "As needed"
  | some (num, u) =>
    let unit := lowerL u
    match pyInt num with
    | none => .error ()
    | some n =>
      if unit = "day".data then
        .ok (String.mk (num ++ (if 1 < n then " Days" else " Day").data))
      else if unit = "week".data then
        .ok (String.mk (num ++ (if 1 < n then " Weeks" else " Week").data))
      else
        .ok (String.mk (num ++ (if 1 < n then " Months" else " Month").data))

/-- `in.person` (the `.` of the source pattern matches any non-newline). -/
def inPersonPat : P Unit :=
  pbind (plitCI "in".data) fun _ => pbind (pch (fun c => !(c = '\n'))) fun _ =>
  plitCI "person".data

def teleModeAlt : P Chars :=
  paltCIc ["teleconsultation", "video call", "online", "virtual", "tele",
           "phone call", "telephone"]

def clinicModeAlt : P Unit :=
  por (plitCI "clinic visit".data)
    (por inPersonPat
      (por (plitCI "office visit".data)
        (por (plitCI "physical visit".data) (plitCI "visit clinic".data))))

def extract_follow_up_mode_advanced (text : String) : String :=
  if psearchB false teleModeAlt text.data then "Teleconsultation"
  else if psearchB false clinicModeAlt text.data then "Clinic Visit"
  else "Clinic Visit"

def teleVisitAlt : P Chars :=
  paltCIc ["teleconsultation", "tele", "video", "online", "virtual", "remote"]

def clinicVisitAlt : P Unit :=
  por (plitCI "clinic".data)
    (por inPersonPat
      (por (plitCI "office".data)
        (por (plitCI "physical".data) (plitCI "visited".data))))

def extract_visit_type_advanced (text : String) : String :=
  if psearchB false teleVisitAlt text.data then "Teleconsultation"
  else if psearchB false clinicVisitAlt text.data then "In Person"
  else "In Person"

/-! ## extract_medical_data_advanced -/

def extract_medical_data_advanced (text : String) :
    Except Unit MedicalRecord :=
  let text := clean_medical_text text
  let vitals := extract_vitals_advanced text
  let text_without_vitals := remove_vitals_from_text text vitals
  match extract_medications_advanced text with
  | .error er => .error er
  | .ok meds =>
    match extract_follow_up_advanced text with
    | .error er => .error er
    | .ok fud =>
      .ok { chief_complaint := extract_chief_complaint_advanced text
            consult_summary :=
              extract_consult_summary_advanced text_without_vitals vitals
            vitals_examination := vitals
            medication_data := meds
            investigations := extract_investigations_advanced text
            medicine_templates := extract_medicine_templates_advanced text
            super_templates := extract_super_templates_advanced text
            advice := extract_advice_advanced text
            follow_up_day := fud
            follow_up_mode := extract_follow_up_mode_advanced text
            visit_type := extract_visit_type_advanced text }

instance {ε α : Type} [DecidableEq ε] [DecidableEq α] : DecidableEq (Except ε α) := fun a b =>
  match a, b with
  | .ok x, .ok y => if h : x = y then .isTrue (by rw [h]) else .isFalse (by simp [h])
  | .error x, .error y => if h : x = y then .isTrue (by rw [h]) else .isFalse (by simp [h])
  | .ok _, .error _ => .isFalse (by simp)
  | .error _, .ok _ => .isFalse (by simp)

/-! ## Character-class facts -/

theorem digit_toNat (c : Char) (h : c.isDigit = true) :
    48 ≤ c.toNat ∧ c.toNat ≤ 57 := by
  simp [Char.isDigit] at h
  exact h

theorem digit_toLower (c : Char) (h : c.isDigit = true) : c.toLower = c := by
  have := digit_toNat c h
  unfold Char.toLower
  rw [if_neg]
  omega

theorem digit_not_ws (c : Char) (h : c.isDigit = true) : isPyWs c = false := by
  have := digit_toNat c h
  unfold isPyWs
  simp only [Bool.or_eq_false_iff, decide_eq_false_iff_not]
  refine ⟨⟨⟨⟨⟨?_, ?_⟩, ?_⟩, ?_⟩, ?_⟩, ?_⟩ <;> intro hh <;> subst hh <;> simp_all

/-- A digit is not case-insensitively equal to any character whose
lowercase form is not a digit. -/
theorem digit_not_ciEq (d c : Char) (hd : d.isDigit = true)
    (hc : c.toLower.isDigit = false) : ciEq d c = false := by
  unfold ciEq
  rw [digit_toLower d hd]
  by_contra h
  simp only [Bool.not_eq_false, decide_eq_true_eq] at h
  rw [← h] at hc
  rw [hd] at hc
  simp at hc

/-! ## Parser membership lemmas -/

theorem mem_ppure {α : Type} {a b : α} {cs rest : Chars} :
    (b, rest) ∈ ppure a cs ↔ b = a ∧ rest = cs := by
  simp [ppure, Prod.ext_iff]

theorem mem_pbind {α β : Type} {p : P α} {f : α → P β} {cs rest : Chars}
    {b : β} :
    (b, rest) ∈ pbind p f cs ↔
      ∃ a mid, (a, mid) ∈ p cs ∧ (b, rest) ∈ f a mid := by
  unfold pbind
  rw [List.mem_bind]
  constructor
  · rintro ⟨⟨a, mid⟩, h1, h2⟩
    exact ⟨a, mid, h1, h2⟩
  · rintro ⟨a, mid, h1, h2⟩
    exact ⟨(a, mid), h1, h2⟩

theorem mem_por {α : Type} {p q : P α} {cs rest : Chars} {a : α} :
    (a, rest) ∈ por p q cs ↔ (a, rest) ∈ p cs ∨ (a, rest) ∈ q cs := by
  simp [por]

theorem mem_pch {f : Char → Bool} {cs rest : Chars} {c : Char}
    (h : (c, rest) ∈ pch f cs) : f c = true ∧ cs = c :: rest := by
  unfold pch at h
  match cs, h with
  | d :: ds, h =>
    by_cases hf : f d
    · simp [hf, Prod.ext_iff] at h
      obtain ⟨rfl, rfl⟩ := h
      exact ⟨hf, rfl⟩
    · simp [hf] at h

theorem mem_plitCIc {s : Chars} : ∀ {cs rest l : Chars},
    (l, rest) ∈ plitCIc s cs →
    List.Forall₂ (fun d c => ciEq d c = true) l s ∧ cs = l ++ rest := by
  induction s with
  | nil =>
    intro cs rest l h
    unfold plitCIc at h
    rw [mem_ppure] at h
    obtain ⟨rfl, rfl⟩ := h
    exact ⟨List.Forall₂.nil, rfl⟩
  | cons c srest ih =>
    intro cs rest l h
    unfold plitCIc at h
    rw [mem_pbind] at h
    obtain ⟨d, mid, hd, h⟩ := h
    rw [mem_pbind] at h
    obtain ⟨l2, mid2, hl2, h⟩ := h
    rw [mem_ppure] at h
    obtain ⟨rfl, rfl⟩ := h
    obtain ⟨hfd, rfl⟩ := mem_pch hd
    obtain ⟨hfa, rfl⟩ := ih hl2
    exact ⟨List.Forall₂.cons hfd hfa, rfl⟩

theorem mem_pmanyG {f : Char → Bool} {cs rest l : Chars}
    (h : (l, rest) ∈ pmanyG f cs) :
    (∀ c ∈ l, f c = true) ∧ cs = l ++ rest := by
  unfold pmanyG at h
  rw [List.mem_map] at h
  obtain ⟨j, _, hj⟩ := h
  rw [Prod.ext_iff] at hj
  obtain ⟨hl, hr⟩ := hj
  simp only at hl hr
  subst hl hr
  constructor
  · intro c hc
    exact List.mem_takeWhile_imp (List.mem_of_mem_take hc)
  · rw [← List.append_assoc, List.take_append_drop,
      List.takeWhile_append_dropWhile]

theorem mem_pmany1G {f : Char → Bool} {cs rest l : Chars}
    (h : (l, rest) ∈ pmany1G f cs) :
    l ≠ [] ∧ (∀ c ∈ l, f c = true) ∧ cs = l ++ rest := by
  unfold pmany1G at h
  rw [List.mem_filter] at h
  obtain ⟨hm, hne⟩ := h
  obtain ⟨ha, he⟩ := mem_pmanyG hm
  refine ⟨?_, ha, he⟩
  simpa using hne

theorem mem_prepCnt {f : Char → Bool} : ∀ {n : Nat} {cs rest l : Chars},
    (l, rest) ∈ prepCnt f n cs →
    l.length = n ∧ (∀ c ∈ l, f c = true) ∧ cs = l ++ rest := by
  intro n
  induction n with
  | zero =>
    intro cs rest l h
    unfold prepCnt at h
    rw [mem_ppure] at h
    obtain ⟨rfl, rfl⟩ := h
    simp
  | succ k ih =>
    intro cs rest l h
    unfold prepCnt at h
    rw [mem_pbind] at h
    obtain ⟨c, mid, hc, h⟩ := h
    rw [mem_pbind] at h
    obtain ⟨l2, mid2, hl2, h⟩ := h
    rw [mem_ppure] at h
    obtain ⟨rfl, rfl⟩ := h
    obtain ⟨hfc, rfl⟩ := mem_pch hc
    obtain ⟨hlen, hall, rfl⟩ := ih hl2
    refine ⟨by simp [hlen], ?_, rfl⟩
    intro d hd
    rcases List.mem_cons.mp hd with rfl | hd
    · exact hfc
    · exact hall d hd

/-- `[0-9]{2,3}`-group characterization. -/
def D23 (l : Chars) : Prop :=
  (l.length = 2 ∨ l.length = 3) ∧ ∀ c ∈ l, c.isDigit = true

theorem mem_pd23 {cs rest l : Chars} (h : (l, rest) ∈ pd23 cs) :
    D23 l ∧ cs = l ++ rest := by
  unfold pd23 at h
  rw [mem_por] at h
  rcases h with h | h
  · obtain ⟨hlen, hall, he⟩ := mem_prepCnt h
    exact ⟨⟨Or.inr hlen, hall⟩, he⟩
  · obtain ⟨hlen, hall, he⟩ := mem_prepCnt h
    exact ⟨⟨Or.inl hlen, hall⟩, he⟩

theorem mem_popt {α : Type} {p : P α} {cs rest : Chars} {o : Option α}
    (h : (o, rest) ∈ popt p cs) :
    (o = none ∧ rest = cs) ∨ ∃ a, o = some a ∧ (a, rest) ∈ p cs := by
  unfold popt at h
  rw [mem_por] at h
  rcases h with h | h
  · rw [mem_pbind] at h
    obtain ⟨a, mid, ha, h⟩ := h
    rw [mem_ppure] at h
    obtain ⟨rfl, rfl⟩ := h
    exact Or.inr ⟨a, rfl, ha⟩
  · rw [mem_ppure] at h
    exact Or.inl h

theorem mem_plazyDotsGo {α : Type} {p : P α} : ∀ {cs rest : Chars} {a : α},
    (a, rest) ∈ plazyDotsGo p cs → ∃ cs2, (a, rest) ∈ p cs2 := by
  intro cs
  induction cs with
  | nil =>
    intro rest a h
    exact ⟨[], h⟩
  | cons c r ih =>
    intro rest a h
    unfold plazyDotsGo at h
    rw [List.mem_append] at h
    rcases h with h | h
    · exact ⟨c :: r, h⟩
    · by_cases hc : c = '\n'
      · simp [hc] at h
      · simp only [if_neg hc] at h
        exact ih h

/-! ## Scanner soundness -/

theorem searchAux_sound {α : Type} {wb : Bool} {p : P α} :
    ∀ {prev : Option Char} {i : Nat} {cs : Chars} {s e : Nat} {a : α},
    searchAux wb p prev i cs = some (s, e, a) →
    ∃ cs2 rest, (a, rest) ∈ p cs2 := by
  intro prev i cs
  induction cs generalizing prev i with
  | nil =>
    intro s e a h
    unfold searchAux at h
    revert h
    cases hm : (if !wb || prevNonWord prev then p [] else []) with
    | nil => intro h; cases h
    | cons x t =>
      intro h
      refine ⟨[], x.2, ?_⟩
      have hx : x ∈ p [] := by
        by_cases hc : (!wb || prevNonWord prev) = true
        · rw [if_pos hc] at hm
          rw [hm]
          left
        · rw [if_neg hc] at hm
          cases hm
      cases h
      simpa using hx
  | cons c r ih =>
    intro s e a h
    unfold searchAux at h
    revert h
    cases hm : (if !wb || prevNonWord prev then p (c :: r) else []) with
    | nil =>
      intro h
      exact ih h
    | cons x t =>
      intro h
      refine ⟨c :: r, x.2, ?_⟩
      have hx : x ∈ p (c :: r) := by
        by_cases hc : (!wb || prevNonWord prev) = true
        · rw [if_pos hc] at hm
          rw [hm]
          left
        · rw [if_neg hc] at hm
          cases hm
      cases h
      simpa using hx

theorem psearch_sound {α : Type} {wb : Bool} {p : P α} {cs : Chars}
    {s e : Nat} {a : α} (h : psearch wb p cs = some (s, e, a)) :
    ∃ cs2 rest, (a, rest) ∈ p cs2 :=
  searchAux_sound h

theorem searchFirst_sound : ∀ {pats : List (P Chars)} {cs g : Chars},
    searchFirst pats cs = some g →
    ∃ p ∈ pats, ∃ cs2 rest, (g, rest) ∈ p cs2 := by
  intro pats
  induction pats with
  | nil => intro cs g h; cases h
  | cons p rest ih =>
    intro cs g h
    unfold searchFirst at h
    revert h
    cases hm : psearch false p cs with
    | some x =>
      intro h
      cases h
      obtain ⟨s, e, a⟩ := x
      exact ⟨p, by left, psearch_sound hm⟩
    | none =>
      intro h
      obtain ⟨q, hq, hout⟩ := ih h
      exact ⟨q, by right; exact hq, hout⟩

/-! ## Vitals capture shapes (C9) -/

/-- The shape `NNN/NNN` with 2–3 digit components. -/
def BpShape (l : Chars) : Prop :=
  ∃ a b, l = a ++ '/' :: b ∧ D23 a ∧ D23 b

theorem mem_pbind_right {α β : Type} {p : P α} {f : α → P β}
    {cs rest : Chars} {b : β} (h : (b, rest) ∈ pbind p f cs) :
    ∃ a mid, (b, rest) ∈ f a mid := by
  rw [mem_pbind] at h
  obtain ⟨a, mid, _, h⟩ := h
  exact ⟨a, mid, h⟩

theorem mem_bpGroup {cs rest g : Chars} (h : (g, rest) ∈ bpGroup cs) :
    BpShape g := by
  unfold bpGroup at h
  rw [mem_pbind] at h
  obtain ⟨a, m1, ha, h⟩ := h
  obtain ⟨_, m2, h⟩ := mem_pbind_right h
  rw [mem_pbind] at h
  obtain ⟨b, m3, hb, h⟩ := h
  rw [mem_ppure] at h
  obtain ⟨rfl, rfl⟩ := h
  exact ⟨a, b, rfl, (mem_pd23 ha).1, (mem_pd23 hb).1⟩

theorem bp_patterns_shape :
    ∀ p ∈ bp_patterns, ∀ {cs g rest : Chars}, (g, rest) ∈ p cs → BpShape g := by
  intro p hp
  simp only [bp_patterns, List.mem_cons, List.not_mem_nil, or_false] at hp
  rcases hp with rfl | rfl | rfl | rfl | rfl | rfl | rfl | rfl | rfl | rfl
  · intro cs g rest h
    unfold labelThen at h
    obtain ⟨_, _, h⟩ := mem_pbind_right h
    obtain ⟨_, _, h⟩ := mem_pbind_right h
    exact mem_bpGroup h
  · intro cs g rest h
    unfold labelThen at h
    obtain ⟨_, _, h⟩ := mem_pbind_right h
    obtain ⟨_, _, h⟩ := mem_pbind_right h
    exact mem_bpGroup h
  · intro cs g rest h
    rw [mem_pbind] at h
    obtain ⟨g2, mid, hg2, h⟩ := h
    obtain ⟨_, _, h⟩ := mem_pbind_right h
    obtain ⟨_, _, h⟩ := mem_pbind_right h
    rw [mem_ppure] at h
    obtain ⟨rfl, rfl⟩ := h
    exact mem_bpGroup hg2
  · intro cs g rest h
    rw [mem_pbind] at h
    obtain ⟨g2, mid, hg2, h⟩ := h
    obtain ⟨_, _, h⟩ := mem_pbind_right h
    obtain ⟨_, _, h⟩ := mem_pbind_right h
    obtain ⟨_, _, h⟩ := mem_pbind_right h
    obtain ⟨_, _, h⟩ := mem_pbind_right h
    rw [mem_ppure] at h
    obtain ⟨rfl, rfl⟩ := h
    exact mem_bpGroup hg2
  · intro cs g rest h
    obtain ⟨_, _, h⟩ := mem_pbind_right h
    exact mem_bpGroup h
  · intro cs g rest h
    obtain ⟨_, _, h⟩ := mem_pbind_right h
    exact mem_bpGroup h
  · intro cs g rest h
    obtain ⟨_, _, h⟩ := mem_pbind_right h
    exact mem_bpGroup h
  · intro cs g rest h
    obtain ⟨_, _, h⟩ := mem_pbind_right h
    exact mem_bpGroup h
  · intro cs g rest h
    obtain ⟨_, _, h⟩ := mem_pbind_right h
    obtain ⟨_, _, h⟩ := mem_pbind_right h
    rw [mem_pbind] at h
    obtain ⟨a, m1, ha, h⟩ := h
    obtain ⟨_, _, h⟩ := mem_pbind_right h
    obtain ⟨_, _, h⟩ := mem_pbind_right h
    obtain ⟨_, _, h⟩ := mem_pbind_right h
    rw [mem_pbind] at h
    obtain ⟨b, m2, hb, h⟩ := h
    rw [mem_ppure] at h
    obtain ⟨rfl, rfl⟩ := h
    exact ⟨a, b, rfl, (mem_pd23 ha).1, (mem_pd23 hb).1⟩
  · intro cs g rest h
    rw [mem_pbind] at h
    obtain ⟨a, m1, ha, h⟩ := h
    obtain ⟨_, _, h⟩ := mem_pbind_right h
    obtain ⟨_, _, h⟩ := mem_pbind_right h
    obtain ⟨_, _, h⟩ := mem_pbind_right h
    rw [mem_pbind] at h
    obtain ⟨b, m2, hb, h⟩ := h
    rw [mem_ppure] at h
    obtain ⟨rfl, rfl⟩ := h
    exact ⟨a, b, rfl, (mem_pd23 ha).1, (mem_pd23 hb).1⟩

theorem d23_end_of_chain {cs rest g : Chars}
    (h : (g, rest) ∈ pd23 cs) : D23 g := (mem_pd23 h).1

theorem labelThen_d23 {label : String} {cs g rest : Chars}
    (h : (g, rest) ∈ labelThen label pd23 cs) : D23 g := by
  unfold labelThen at h
  obtain ⟨_, _, h⟩ := mem_pbind_right h
  obtain ⟨_, _, h⟩ := mem_pbind_right h
  exact (mem_pd23 h).1

theorem lit_then_d23 {s : Chars} {cs g rest : Chars}
    (h : (g, rest) ∈ pbind (plitCI s) (fun _ => pd23) cs) : D23 g := by
  obtain ⟨_, _, h⟩ := mem_pbind_right h
  exact (mem_pd23 h).1

/-- `(d23)\s*UNIT` : the capture comes first, the unit suffix is dropped. -/
theorem d23_unit_shape {tail : Chars → P Chars} {cs g rest : Chars}
    (h : (g, rest) ∈ pbind pd23 tail cs)
    (htail : ∀ g2 mid rest2, (g, rest2) ∈ tail g2 mid → g = g2) : D23 g := by
  rw [mem_pbind] at h
  obtain ⟨g2, mid, hg2, h⟩ := h
  rw [htail g2 mid rest h]
  exact (mem_pd23 hg2).1

theorem pr_patterns_shape :
    ∀ p ∈ pr_patterns, ∀ {cs g rest : Chars}, (g, rest) ∈ p cs → D23 g := by
  intro p hp
  simp only [pr_patterns, List.mem_cons, List.not_mem_nil, or_false] at hp
  rcases hp with rfl | rfl | rfl | rfl | rfl | rfl | rfl | rfl | rfl | rfl | rfl
  · intro cs g rest h; exact labelThen_d23 h
  · intro cs g rest h; exact labelThen_d23 h
  · intro cs g rest h; exact labelThen_d23 h
  · intro cs g rest h; exact labelThen_d23 h
  · intro cs g rest h; exact labelThen_d23 h
  · -- `(d23)\s*bpm`
    intro cs g rest h
    rw [mem_pbind] at h
    obtain ⟨g2, mid, hg2, h⟩ := h
    obtain ⟨_, _, h⟩ := mem_pbind_right h
    obtain ⟨_, _, h⟩ := mem_pbind_right h
    rw [mem_ppure] at h
    obtain ⟨rfl, rfl⟩ := h
    exact (mem_pd23 hg2).1
  · intro cs g rest h; exact lit_then_d23 h
  · intro cs g rest h; exact lit_then_d23 h
  · intro cs g rest h; exact lit_then_d23 h
  · intro cs g rest h; exact lit_then_d23 h
  · -- `pulse.*?(d23)`
    intro cs g rest h
    obtain ⟨_, _, h⟩ := mem_pbind_right h
    unfold plazyDots at h
    obtain ⟨_, h⟩ := mem_plazyDotsGo h
    exact (mem_pd23 h).1

theorem rbs_patterns_shape :
    ∀ p ∈ rbs_patterns, ∀ {cs g rest : Chars}, (g, rest) ∈ p cs → D23 g := by
  intro p hp
  simp only [rbs_patterns, List.mem_cons, List.not_mem_nil, or_false] at hp
  rcases hp with rfl | rfl | rfl | rfl | rfl | rfl | rfl | rfl | rfl | rfl
  · intro cs g rest h; exact labelThen_d23 h
  · intro cs g rest h; exact labelThen_d23 h
  · intro cs g rest h; exact labelThen_d23 h
  · -- `(d23)\s*mg/dL`
    intro cs g rest h
    rw [mem_pbind] at h
    obtain ⟨g2, mid, hg2, h⟩ := h
    obtain ⟨_, _, h⟩ := mem_pbind_right h
    obtain ⟨_, _, h⟩ := mem_pbind_right h
    rw [mem_ppure] at h
    obtain ⟨rfl, rfl⟩ := h
    exact (mem_pd23 hg2).1
  · -- `(d23)\s*mg\s*/\s*dL`
    intro cs g rest h
    rw [mem_pbind] at h
    obtain ⟨g2, mid, hg2, h⟩ := h
    obtain ⟨_, _, h⟩ := mem_pbind_right h
    obtain ⟨_, _, h⟩ := mem_pbind_right h
    obtain ⟨_, _, h⟩ := mem_pbind_right h
    obtain ⟨_, _, h⟩ := mem_pbind_right h
    obtain ⟨_, _, h⟩ := mem_pbind_right h
    obtain ⟨_, _, h⟩ := mem_pbind_right h
    rw [mem_ppure] at h
    obtain ⟨rfl, rfl⟩ := h
    exact (mem_pd23 hg2).1
  · intro cs g rest h; exact lit_then_d23 h
  · intro cs g rest h; exact lit_then_d23 h
  · intro cs g rest h; exact labelThen_d23 h
  · intro cs g rest h; exact labelThen_d23 h
  · -- `sugar.*?(d23)`
    intro cs g rest h
    obtain ⟨_, _, h⟩ := mem_pbind_right h
    unfold plazyDots at h
    obtain ⟨_, h⟩ := mem_plazyDotsGo h
    exact (mem_pd23 h).1

/-- A vitals subfield value: empty, or of the validated shape. -/
def BpField (s : String) : Prop := s = "" ∨ BpShape s.data

def D23Field (s : String) : Prop := s = "" ∨ D23 s.data

theorem vitals_bp_shape (text : String) :
    BpField (extract_vitals_advanced text).bp := by
  unfold extract_vitals_advanced
  cases hm : searchFirst bp_patterns text.data with
  | none => left; simp [hm]
  | some g =>
    right
    simp only [hm, Option.getD_some]
    obtain ⟨p, hp, cs2, rest, hmem⟩ := searchFirst_sound hm
    exact bp_patterns_shape p hp hmem

theorem vitals_pr_shape (text : String) :
    D23Field (extract_vitals_advanced text).pr := by
  unfold extract_vitals_advanced
  cases hm : searchFirst pr_patterns text.data with
  | none => left; simp [hm]
  | some g =>
    right
    simp only [hm, Option.getD_some]
    obtain ⟨p, hp, cs2, rest, hmem⟩ := searchFirst_sound hm
    exact pr_patterns_shape p hp hmem

theorem vitals_rbs_shape (text : String) :
    D23Field (extract_vitals_advanced text).rbs := by
  unfold extract_vitals_advanced
  cases hm : searchFirst rbs_patterns text.data with
  | none => left; simp [hm]
  | some g =>
    right
    simp only [hm, Option.getD_some]
    obtain ⟨p, hp, cs2, rest, hmem⟩ := searchFirst_sound hm
    exact rbs_patterns_shape p hp hmem

/-- C9: for every input text, every subfield of the vitals map is either
empty or a validated numeric-pattern string: `bp` has shape `NNN/NNN` and
`pr`, `rbs` have shape `NNN`, each numeric component 2–3 digits. -/
theorem C9_vitals_fields_validated (text : String) :
    BpField (extract_vitals_advanced text).bp ∧
    D23Field (extract_vitals_advanced text).pr ∧
    D23Field (extract_vitals_advanced text).rbs :=
  ⟨vitals_bp_shape text, vitals_pr_shape text, vitals_rbs_shape text⟩

/-! ## C7: follow-up-mode precedence -/

/-- C7: for any text containing teleconsultation vocabulary — also when
clinic vocabulary is present — the mode extractor returns
"Teleconsultation", because the teleconsultation check runs first. -/
theorem C7_follow_up_mode_precedence (text : String)
    (htele : psearchB false teleModeAlt text.data = true)
    (_hclinic : psearchB false clinicModeAlt text.data = true) :
    extract_follow_up_mode_advanced text = "Teleconsultation" := by
  unfold extract_follow_up_mode_advanced
  rw [htele]
  simp

theorem C7_witness :
    psearchB false teleModeAlt "teleconsultation clinic visit".data = true ∧
    psearchB false clinicModeAlt "teleconsultation clinic visit".data = true ∧
    extract_follow_up_mode_advanced "teleconsultation clinic visit" =
      "Teleconsultation" :=
  ⟨by decide, by decide,
    C7_follow_up_mode_precedence "teleconsultation clinic visit"
      (by decide) (by decide)⟩

/-! ## C2: consultation summary structure -/

theorem dedupFirstAux_spec : ∀ (l seen : List String),
    (dedupFirstAux seen l).Nodup ∧
    ∀ x ∈ dedupFirstAux seen l, seen.contains x = false := by
  intro l
  induction l with
  | nil => intro seen; simp [dedupFirstAux]
  | cons x rest ih =>
    intro seen
    unfold dedupFirstAux
    by_cases hx : seen.contains x = true
    · simp only [hx, if_true]
      exact ih seen
    · simp only [hx, if_false]
      obtain ⟨nd, hmem⟩ := ih (x :: seen)
      have hxnot : x ∉ dedupFirstAux (x :: seen) rest := by
        intro hmemx
        have := hmem x hmemx
        simp [List.contains_cons] at this
      refine ⟨List.Nodup.cons hxnot nd, ?_⟩
      intro y hy
      rcases List.mem_cons.mp hy with rfl | hy2
    
      · simpa using hx
      · have := hmem y hy2
        simp [List.contains_cons] at this
        simpa using this.2

theorem dedupFirst_nodup (l : List String) : (dedupFirst l).Nodup :=
  (dedupFirstAux_spec l []).1

/-- C2 (amended): the summary is the canned fallback exactly when no
finding was collected; otherwise it is the ". "-join of ALL deduplicated
findings (first-seen order, duplicate-free), terminated with "." — the
source imposes no 3-item cap. -/
theorem C2_consult_summary_structure (text : String) (v : Vitals) :
    (consultParts text.data = [] ∧
      extract_consult_summary_advanced text v = consultFallback) ∨
    (consultParts text.data ≠ [] ∧
      extract_consult_summary_advanced text v =
        String.intercalate ". " (dedupFirst (consultParts text.data)) ++ "." ∧
      (dedupFirst (consultParts text.data)).Nodup) := by
  unfold extract_consult_summary_advanced
  cases hp : consultParts text.data with
  | nil => left; simp [hp]
  | cons a rest =>
    right
    refine ⟨by simp, ?_, ?_⟩
    · simp [hp]
    · rw [← hp]
      exact dedupFirst_nodup _

/-- The claim C2 as stated, instantiated at one input: summary is empty,
the fallback, or a join of at most 3 deduplicated findings. -/
def C2claimAt (text : String) (v : Vitals) : Prop :=
  extract_consult_summary_advanced text v = "" ∨
  extract_consult_summary_advanced text v = consultFallback ∨
  (extract_consult_summary_advanced text v =
      String.intercalate ". " (dedupFirst (consultParts text.data)) ++ "." ∧
    (dedupFirst (consultParts text.data)).length ≤ 3)

theorem C2_counterexample :
    ¬ C2claimAt "fever headache dizziness fatigue" ⟨"", "", ""⟩ := by
  unfold C2claimAt
  decide!

/-! ## C5: investigation names are duplicate-free -/

theorem map_filterMap_sublist {α β γ : Type} (f : α → Option β) (g : β → γ)
    (h : α → γ) (hfg : ∀ a b, f a = some b → g b = h a) :
    ∀ l : List α, ((l.filterMap f).map g).Sublist (l.map h) := by
  intro l
  induction l with
  | nil => simp
  | cons a rest ih =>
    rw [List.filterMap_cons]
    cases hf : f a with
    | none =>
      rw [List.map_cons]
      exact ih.cons _
    | some b =>
      rw [List.map_cons, List.map_cons, hfg a b hf]
      exact ih.cons₂ _

theorem isPrefixOf_self : ∀ l : Chars, List.isPrefixOf l l = true := by
  intro l
  induction l with
  | nil => rfl
  | cons c r ih => simp [List.isPrefixOf, ih]

theorem pyIn_self (l : Chars) : pyIn l l = true := by
  cases l with
  | nil => rfl
  | cons c r =>
    unfold pyIn pyInAux
    rw [isPrefixOf_self]
    rfl

/-- Tier-1 entries carry pairwise-distinct canonical names: their name list
is a sublist of the (duplicate-free) canonical-name column of the table. -/
theorem tier1Invs_names_nodup (cs : Chars) :
    ((tier1Invs cs).map (fun e => e.investigation)).Nodup := by
  have hsub :
      ((tier1Invs cs).map (fun e => e.investigation)).Sublist
        (investigation_db.map (fun r => r.names.headD "")) := by
    unfold tier1Invs
    apply map_filterMap_sublist
    intro a b hf
    by_cases hc : a.names.any (fun n => invNameFound n cs) = true
    · rw [if_pos hc] at hf
      cases hf
      rfl
    · rw [if_neg hc] at hf
      cases hf
  have hnodup : (investigation_db.map (fun r => r.names.headD "")).Nodup := by
    decide
  exact hsub.nodup hnodup

theorem tier2InvFold_pairwise :
    ∀ (cands : List Chars) (acc : List InvestigationEntry) (nid : Nat),
    acc.Pairwise (fun a b => a.investigation ≠ b.investigation) →
    (tier2InvFold acc nid cands).Pairwise
      (fun a b => a.investigation ≠ b.investigation) := by
  intro cands
  induction cands with
  | nil => intro acc nid h; exact h
  | cons t rest ih =>
    intro acc nid h
    unfold tier2InvFold
    by_cases hc : (2 < (pyStrip t).length &&
        !(acc.any fun inv =>
          pyIn (lowerL (pyStrip t)) (lowerL inv.investigation.data))) = true
    · rw [if_pos hc]
      apply ih
      rw [List.pairwise_append]
      refine ⟨h, by simp, ?_⟩
      intro a ha b hb
      simp only [List.mem_singleton] at hb
      subst hb
      intro heq
      rw [Bool.and_eq_true, Bool.not_eq_true'] at hc
      have hall := List.any_eq_false.mp hc.2 a ha
      rw [heq] at hall
      simp only at hall
      rw [pyIn_self] at hall
      exact hall rfl
    · rw [if_neg hc]
      exact ih acc nid h

/-- C5: for every input text, no two returned investigation entries share
the same investigation name — tier-1 rows contribute distinct canonical
names and tier-2 candidates are skipped when they substring-match an
already-emitted name. -/
theorem C5_investigations_nodup (text : String) :
    (extract_investigations_advanced text).Pairwise
      (fun a b => a.investigation ≠ b.investigation) := by
  unfold extract_investigations_advanced
  apply tier2InvFold_pairwise
  have h := tier1Invs_names_nodup text.data
  unfold List.Nodup at h
  rw [List.pairwise_map] at h
  exact h

/-! ## C8: the engine is total (no exception) and a pattern-free text
yields the canned defaults -/

theorem pyInt_isSome {l : Chars} (hne : l ≠ [])
    (hall : ∀ c ∈ l, c.isDigit = true) : ∃ n, pyInt l = some n := by
  unfold pyInt
  rw [if_pos]
  · exact ⟨_, rfl⟩
  · rw [Bool.and_eq_true]
    refine ⟨by simpa using hne, ?_⟩
    rw [List.all_eq_true]
    intro c hc
    exact hall c hc

theorem dosePat2_digit {cs rest g : Chars}
    (h : (g, rest) ∈ dosePat2 cs) : ∃ d, g = [d] ∧ d.isDigit = true := by
  unfold dosePat2 at h
  rw [mem_pbind] at h
  obtain ⟨d, mid, hd, h⟩ := h
  obtain ⟨_, _, h⟩ := mem_pbind_right h
  obtain ⟨_, _, h⟩ := mem_pbind_right h
  obtain ⟨_, _, h⟩ := mem_pbind_right h
  obtain ⟨_, _, h⟩ := mem_pbind_right h
  rw [mem_ppure] at h
  obtain ⟨rfl, rfl⟩ := h
  exact ⟨d, rfl, (mem_pch hd).1⟩

theorem extract_dosage_pattern_ok (cs : Chars) :
    ∃ r, extract_dosage_pattern cs = .ok r := by
  unfold extract_dosage_pattern
  cases h1 : psearch false dosePat1 cs with
  | some x => exact ⟨_, rfl⟩
  | none =>
    cases h2 : psearch false dosePat2 cs with
    | some x =>
      obtain ⟨s, e, g⟩ := x
      obtain ⟨cs2, rest, hmem⟩ := psearch_sound h2
      obtain ⟨d, rfl, hd⟩ := dosePat2_digit hmem
      obtain ⟨n, hn⟩ := @pyInt_isSome [d] (by simp)
        (by intro c hc; rw [List.mem_singleton] at hc; subst hc; exact hd)
      simp only [hn]
      exact ⟨_, rfl⟩
    | none => exact ⟨_, rfl⟩

theorem durCore_num_digits {cs rest : Chars} {r : Chars × Chars}
    (h : (r, rest) ∈ durCore cs) :
    r.1 ≠ [] ∧ ∀ c ∈ r.1, c.isDigit = true := by
  unfold durCore at h
  rw [mem_pbind] at h
  obtain ⟨num, mid, hnum, h⟩ := h
  obtain ⟨_, _, h⟩ := mem_pbind_right h
  obtain ⟨_, _, h⟩ := mem_pbind_right h
  obtain ⟨_, _, h⟩ := mem_pbind_right h
  rw [mem_ppure] at h
  obtain ⟨rfl, rfl⟩ := h
  obtain ⟨hne, hall, _⟩ := mem_pmany1G hnum
  exact ⟨hne, hall⟩

theorem formatDuration_ok {num u : Chars} (hne : num ≠ [])
    (hall : ∀ c ∈ num, c.isDigit = true) :
    ∃ r, formatDuration num u = .ok r := by
  unfold formatDuration
  obtain ⟨n, hn⟩ := pyInt_isSome hne hall
  rw [hn]
  exact ⟨_, rfl⟩

theorem extract_duration_pattern_ok (cs : Chars) :
    ∃ r, extract_duration_pattern cs = .ok r := by
  unfold extract_duration_pattern
  cases h1 : psearch false durPat1 cs with
  | some x =>
    obtain ⟨s, e, r⟩ := x
    obtain ⟨cs2, rest, hmem⟩ := psearch_sound h1
    have hdig : r.1 ≠ [] ∧ ∀ c ∈ r.1, c.isDigit = true := by
      unfold durPat1 at hmem
      obtain ⟨_, _, hmem⟩ := mem_pbind_right hmem
      obtain ⟨_, _, hmem⟩ := mem_pbind_right hmem
      exact durCore_num_digits hmem
    obtain ⟨d, hd⟩ := @formatDuration_ok r.1 r.2 hdig.1 hdig.2
    simp only [hd]
    exact ⟨_, rfl⟩
  | none =>
    cases h2 : psearch false durCore cs with
    | some x =>
      obtain ⟨s, e, r⟩ := x
      obtain ⟨cs2, rest, hmem⟩ := psearch_sound h2
      have hdig := durCore_num_digits hmem
      obtain ⟨d, hd⟩ := @formatDuration_ok r.1 r.2 hdig.1 hdig.2
      simp only [hd]
      exact ⟨_, rfl⟩
    | none => exact ⟨_, rfl⟩

theorem tier1MedEntry_ok (row : MedRow) (n : String) (cs : Chars)
    (s e : Nat) (capOpt : Option Chars) :
    ∃ entry, tier1MedEntry row n cs s e capOpt = .ok entry := by
  unfold tier1MedEntry
  obtain ⟨dp, hdp⟩ := extract_dosage_pattern_ok (ctxWindow cs s e)
  obtain ⟨du, hdu⟩ := extract_duration_pattern_ok (ctxWindow cs s e)
  simp only [hdp, hdu]
  exact ⟨_, rfl⟩

theorem tier1Meds_cons_eq (row : MedRow) (n : String)
    (rest : List (MedRow × String)) (cs : Chars) :
    tier1Meds ((row, n) :: rest) cs =
      match findMed n.data cs with
      | none => tier1Meds rest cs
      | some (s, e, capOpt) =>
        match tier1MedEntry row n cs s e capOpt with
        | .error er => .error er
        | .ok entry =>
          match tier1Meds rest cs with
          | .error er => .error er
          | .ok restE => .ok (entry :: restE) := rfl

theorem tier1Meds_ok (cs : Chars) :
    ∀ pairs, ∃ l, tier1Meds pairs cs = .ok l := by
  intro pairs
  induction pairs with
  | nil => exact ⟨[], rfl⟩
  | cons pr rest ih =>
    obtain ⟨row, n⟩ := pr
    cases hfm : findMed n.data cs with
    | none =>
      obtain ⟨l, hl⟩ := ih
      rw [tier1Meds_cons_eq, hfm]
      exact ⟨l, hl⟩
    | some x =>
      obtain ⟨s, e, capOpt⟩ := x
      obtain ⟨entry, hen⟩ := tier1MedEntry_ok row n cs s e capOpt
      obtain ⟨l, hl⟩ := ih
      rw [tier1Meds_cons_eq, hfm]
      simp only [hen, hl]
      exact ⟨_, rfl⟩

theorem extract_medications_advanced_ok (text : String) :
    ∃ l, extract_medications_advanced text = .ok l := by
  unfold extract_medications_advanced
  obtain ⟨l, hl⟩ := tier1Meds_ok text.data medPairs
  simp only [hl]
  exact ⟨_, rfl⟩

theorem followSearch_sound :
    ∀ {pats : List (P (Chars × Chars))} {cs : Chars} {r : Chars × Chars},
    followSearch pats cs = some r →
    ∃ p ∈ pats, ∃ cs2 rest, (r, rest) ∈ p cs2 := by
  intro pats
  induction pats with
  | nil => intro cs r h; cases h
  | cons p rest ih =>
    intro cs r h
    unfold followSearch at h
    revert h
    cases hm : psearch false p cs with
    | some x =>
      intro h
      cases h
      obtain ⟨s, e, a⟩ := x
      exact ⟨p, by left, psearch_sound hm⟩
    | none =>
      intro h
      obtain ⟨q, hq, hout⟩ := ih h
      exact ⟨q, by right; exact hq, hout⟩

theorem followCore_num_digits {kw : String} {cs rest : Chars}
    {r : Chars × Chars} (h : (r, rest) ∈ followCore kw cs) :
    r.1 ≠ [] ∧ ∀ c ∈ r.1, c.isDigit = true := by
  unfold followCore at h
  obtain ⟨_, _, h⟩ := mem_pbind_right h
  rw [mem_pbind] at h
  obtain ⟨num, mid, hnum, h⟩ := h
  obtain ⟨_, _, h⟩ := mem_pbind_right h
  obtain ⟨_, _, h⟩ := mem_pbind_right h
  obtain ⟨_, _, h⟩ := mem_pbind_right h
  rw [mem_ppure] at h
  obtain ⟨rfl, rfl⟩ := h
  obtain ⟨hne, hall, _⟩ := mem_pmany1G hnum
  exact ⟨hne, hall⟩

theorem extract_follow_up_advanced_ok (text : String) :
    ∃ r, extract_follow_up_advanced text = .ok r := by
  unfold extract_follow_up_advanced
  cases hm : followSearch follow_up_patterns text.data with
  | none => exact ⟨_, rfl⟩
  | some r =>
    obtain ⟨num, u⟩ := r
    obtain ⟨p, hp, cs2, rest, hmem⟩ := followSearch_sound hm
    have hdig : num ≠ [] ∧ ∀ c ∈ num, c.isDigit = true := by
      simp only [follow_up_patterns, List.mem_cons, List.not_mem_nil,
        or_false] at hp
      rcases hp with rfl | rfl | rfl | rfl | rfl | rfl | rfl <;>
        exact followCore_num_digits hmem
    obtain ⟨n, hn⟩ := pyInt_isSome hdig.1 hdig.2
    simp only [hn]
    split
    · exact ⟨_, rfl⟩
    · split
      · exact ⟨_, rfl⟩
      · exact ⟨_, rfl⟩

/-- The engine never raises: every input yields a record. -/
theorem extract_medical_data_advanced_ok (text : String) :
    ∃ r, extract_medical_data_advanced text = .ok r := by
  unfold extract_medical_data_advanced
  obtain ⟨l, hl⟩ := extract_medications_advanced_ok (clean_medical_text text)
  obtain ⟨f, hf⟩ := extract_follow_up_advanced_ok (clean_medical_text text)
  simp only [hl, hf]
  exact ⟨_, rfl⟩

/-- C8: the engine returns a complete record for every input string, and a
pattern-free text yields the canned defaults for complaint, summary,
advice, follow-up day, follow-up mode and visit type. -/
theorem C8_total_with_defaults :
    (∀ text : String, ∃ r, extract_medical_data_advanced text = .ok r) ∧
    extract_medical_data_advanced "zzz qqq" = .ok
      { chief_complaint := "General medical consultation"
        consult_summary :=
          "Clinical examination completed. Patient evaluated thoroughly."
        vitals_examination := ⟨"", "", ""⟩
        medication_data := []
        investigations := []
        medicine_templates := []
        super_templates := []
        advice := "Continue current treatment and follow up as scheduled."
        follow_up_day := "As needed"
        follow_up_mode := "Clinic Visit"
        visit_type := "In Person" } :=
  ⟨extract_medical_data_advanced_ok, by decide!⟩

/-! ## Symbolic-evaluation helpers for sub/search -/

theorem subAux_cons_eq (wb : Bool) (p : P Unit) (repl : Chars)
    (prev : Option Char) (c : Char) (l : Chars) (fuel : Nat) :
    subAux wb p repl prev (c :: l) (fuel + 1) =
      match (if !wb || prevNonWord prev then p (c :: l) else []) with
      | (_, rest) :: _ =>
        let n := (c :: l).length - rest.length
        if n = 0 then repl ++ c :: subAux wb p repl (some c) l fuel
        else
          repl ++ subAux wb p repl
            (match ((c :: l).take n).getLast? with
              | some c2 => some c2
              | none => prev) rest fuel
      | [] => c :: subAux wb p repl (some c) l fuel := rfl

theorem subAux_nil (wb : Bool) (p : P Unit) (repl : Chars)
    (prev : Option Char) (fuel : Nat) (h : p [] = []) :
    subAux wb p repl prev [] fuel = [] := by
  cases fuel with
  | zero => rfl
  | succ k =>
    unfold subAux
    rw [h]
    simp

theorem psub_nil (wb : Bool) (p : P Unit) (repl : Chars) (h : p [] = []) :
    psub wb p repl [] = [] :=
  subAux_nil wb p repl none 1 h

/-- A sub pass that never matches copies its input. -/
theorem subAux_id (wb : Bool) (p : P Unit) (repl : Chars) :
    ∀ (fuel : Nat) (l : Chars) (prev : Option Char),
    (∀ s : Chars, s.IsSuffix l → p s = []) →
    subAux wb p repl prev l fuel = l := by
  intro fuel
  induction fuel with
  | zero => intro l prev _; rfl
  | succ k ih =>
    intro l prev hfail
    cases l with
    | nil => exact subAux_nil _ _ _ _ _ (hfail [] List.nil_suffix)
    | cons c r =>
      rw [subAux_cons_eq]
      have hbranch : (if !wb || prevNonWord prev then p (c :: r) else []) = [] := by
        split
        · exact hfail (c :: r) (List.suffix_refl _)
        · rfl
      rw [hbranch]
      simp only []
      rw [ih r (some c) (fun s hs => hfail s (hs.trans (List.suffix_cons c r)))]

theorem psub_id (wb : Bool) (p : P Unit) (repl : Chars) (l : Chars)
    (h : ∀ s : Chars, s.IsSuffix l → p s = []) :
    psub wb p repl l = l :=
  subAux_id wb p repl (l.length + 1) l none h

theorem searchAux_nil_eq (wb : Bool) {α : Type} (p : P α)
    (prev : Option Char) (i : Nat) :
    searchAux wb p prev i [] =
      match (if !wb || prevNonWord prev then p [] else []) with
      | (a, _) :: _ => some (i, i, a)
      | [] => none := rfl

theorem searchAux_cons_eq (wb : Bool) {α : Type} (p : P α)
    (prev : Option Char) (i : Nat) (c : Char) (l : Chars) :
    searchAux wb p prev i (c :: l) =
      match (if !wb || prevNonWord prev then p (c :: l) else []) with
      | (a, r2) :: _ => some (i, i + ((c :: l).length - r2.length), a)
      | [] => searchAux wb p (some c) (i + 1) l := rfl

/-- A search over a text on whose every suffix the pattern fails returns
nothing. -/
theorem searchAux_none (wb : Bool) {α : Type} (p : P α) :
    ∀ (l : Chars) (prev : Option Char) (i : Nat),
    (∀ s : Chars, s.IsSuffix l → p s = []) →
    searchAux wb p prev i l = none := by
  intro l
  induction l with
  | nil =>
    intro prev i hfail
    rw [searchAux_nil_eq]
    have hbranch : (if !wb || prevNonWord prev then p [] else []) = [] := by
      split
      · exact hfail [] List.nil_suffix
      · rfl
    rw [hbranch]
  | cons c r ih =>
    intro prev i hfail
    rw [searchAux_cons_eq]
    have hbranch : (if !wb || prevNonWord prev then p (c :: r) else []) = [] := by
      split
      · exact hfail (c :: r) (List.suffix_refl _)
      · rfl
    rw [hbranch]
    simp only []
    exact ih (some c) (i + 1)
      (fun s hs => hfail s (hs.trans (List.suffix_cons c r)))

theorem psearch_none (wb : Bool) {α : Type} (p : P α) (l : Chars)
    (h : ∀ s : Chars, s.IsSuffix l → p s = []) :
    psearch wb p l = none :=
  searchAux_none wb p l none 0 h

/-- A search succeeding at the very first position. -/
theorem psearch_head {α : Type} (wb : Bool) (p : P α) (c : Char) (l : Chars)
    {a : α} {rest : Chars} (h : (p (c :: l)).head? = some (a, rest)) :
    psearch wb p (c :: l) = some (0, (c :: l).length - rest.length, a) := by
  unfold psearch
  rw [searchAux_cons_eq]
  have hw : (!wb || prevNonWord none) = true := by
    cases wb <;> rfl
  rw [if_pos hw]
  cases hm : p (c :: l) with
  | nil => rw [hm] at h; cases h
  | cons x t =>
    rw [hm] at h
    simp only [List.head?_cons, Option.some.injEq] at h
    subst h
    simp

theorem pch_pos {f : Char → Bool} {c : Char} (l : Chars) (h : f c = true) :
    pch f (c :: l) = [(c, l)] := by
  simp [pch, h]

theorem pch_neg {f : Char → Bool} {c : Char} (l : Chars) (h : f c = false) :
    pch f (c :: l) = [] := by
  simp [pch, h]

theorem ciEq_refl (c : Char) : ciEq c c = true := by
  simp [ciEq]

theorem plitCIc_self : ∀ l : Chars, plitCIc l l = [(l, [])] := by
  intro l
  induction l with
  | nil => rfl
  | cons c r ih =>
    unfold plitCIc pbind
    rw [@pch_pos (fun d => ciEq d c) c r (ciEq_refl c)]
    simp [ih, pbind, ppure]

theorem digit_not_wsColon (c : Char) (h : c.isDigit = true) :
    wsColonCh c = false := by
  unfold wsColonCh
  rw [digit_not_ws c h]
  have : (c = ':') = False := by
    simp only [eq_iff_iff, iff_false]
    intro hc
    subst hc
    simp at h
  simp [this]

/-! ## C6 machinery: the normalizer on `ABBREV <digits>` inputs -/

theorem pbind_nil {α β : Type} {p : P α} {f : α → P β} {cs : Chars}
    (h : p cs = []) : pbind p f cs = [] := by
  unfold pbind
  rw [h]
  rfl

theorem plitCIc_head_fail {c0 : Char} {lit : Chars} {c : Char} {r : Chars}
    (h : ciEq c c0 = false) : plitCIc (c0 :: lit) (c :: r) = [] := by
  unfold plitCIc pbind
  rw [@pch_neg (fun d => ciEq d c0) c r h]
  rfl

theorem plitCIc_second_fail {c0 c1 : Char} {lit : Chars} {c d : Char}
    {r : Chars} (h0 : ciEq c c0 = true) (h1 : ciEq d c1 = false) :
    plitCIc (c0 :: c1 :: lit) (c :: d :: r) = [] := by
  unfold plitCIc pbind
  rw [@pch_pos (fun x => ciEq x c0) c (d :: r) h0]
  simp only [List.cons_bind, List.nil_bind, List.append_nil]
  rw [plitCIc_head_fail h1]
  rfl

theorem abbrevPat_fail_nil {s : String} {c0 : Char} {lit : Chars}
    (hs : s.data = c0 :: lit) : abbrevPat s [] = [] := by
  unfold abbrevPat plitCI
  rw [hs]
  exact pbind_nil (pbind_nil rfl)

theorem abbrevPat_fail_head {s : String} {c0 : Char} {lit : Chars}
    (hs : s.data = c0 :: lit) {c : Char} {r : Chars}
    (h : ciEq c c0 = false) : abbrevPat s (c :: r) = [] := by
  unfold abbrevPat plitCI
  rw [hs]
  exact pbind_nil (pbind_nil (plitCIc_head_fail h))

theorem abbrevPat_fail_second {s : String} {c0 c1 : Char} {lit : Chars}
    (hs : s.data = c0 :: c1 :: lit) {c d : Char} {r : Chars}
    (h0 : ciEq c c0 = true) (h1 : ciEq d c1 = false) :
    abbrevPat s (c :: d :: r) = [] := by
  unfold abbrevPat plitCI
  rw [hs]
  exact pbind_nil (pbind_nil (plitCIc_second_fail h0 h1))

theorem suffix_digits {l s : Chars} (hl : ∀ c ∈ l, c.isDigit = true)
    (hs : s.IsSuffix l) : ∀ c ∈ s, c.isDigit = true :=
  fun c hc => hl c (hs.subset hc)

theorem suffix_fail_cons {p : P Unit} {c : Char} {l : Chars}
    (h1 : p (c :: l) = []) (h2 : ∀ s, s.IsSuffix l → p s = []) :
    ∀ s, s.IsSuffix (c :: l) → p s = [] := by
  intro s hs
  rcases List.suffix_cons_iff.mp hs with rfl | hs2
  · exact h1
  · exact h2 s hs2

theorem suffix_fail_digits {p : P Unit} (hnil : p [] = [])
    (hcons : ∀ (c : Char) (r : Chars), c.isDigit = true →
      (∀ x ∈ r, x.isDigit = true) → p (c :: r) = [])
    {nd : Chars} (h : ∀ c ∈ nd, c.isDigit = true) :
    ∀ s, s.IsSuffix nd → p s = [] := by
  intro s hs
  have hd := suffix_digits h hs
  cases s with
  | nil => exact hnil
  | cons c r =>
    exact hcons c r (hd c (List.mem_cons_self c r))
      (fun x hx => hd x (List.mem_cons_of_mem c hx))

/-- Digits never case-insensitively equal an ASCII letter. -/
theorem digit_ciEq_letter {d : Char} (c : Char) (hd : d.isDigit = true)
    (hc : c.toLower.isDigit = false) : ciEq d c = false :=
  digit_not_ciEq d c hd hc

/-- `abbrevPat s` fails on every all-digit list. -/
theorem abbrevPat_fail_digits {s : String} {c0 : Char} {lit : Chars}
    (hs : s.data = c0 :: lit) (hc0 : c0.toLower.isDigit = false)
    {nd : Chars} (h : ∀ c ∈ nd, c.isDigit = true) :
    ∀ t, t.IsSuffix nd → abbrevPat s t = [] :=
  suffix_fail_digits (abbrevPat_fail_nil hs)
    (fun c r hc _ => abbrevPat_fail_head hs (digit_ciEq_letter c0 hc hc0)) h

theorem wsPlus_head_fail {c : Char} {r : Chars} (h : isPyWs c = false) :
    wsPlus (c :: r) = [] := by
  unfold wsPlus pmany1G pmanyG pbind
  simp [List.takeWhile_cons, h]

theorem wsPlus_nil : wsPlus [] = [] := rfl

theorem wsPlus_fail_digits {nd : Chars} (h : ∀ c ∈ nd, c.isDigit = true) :
    ∀ s, s.IsSuffix nd → wsPlus s = [] :=
  suffix_fail_digits wsPlus_nil
    (fun c r hc _ => wsPlus_head_fail (digit_not_ws c hc)) h

theorem suffix_append_cases {s w l : Chars} (h : s.IsSuffix (w ++ l)) :
    s.IsSuffix l ∨ ∃ w2 : Chars, w2 ≠ [] ∧ w2.IsSuffix w ∧ s = w2 ++ l := by
  induction w with
  | nil => left; simpa using h
  | cons c wr ih =>
    rcases List.suffix_cons_iff.mp h with rfl | h2
    · right
      exact ⟨c :: wr, by simp, List.suffix_refl _, by simp⟩
    · rcases ih h2 with h3 | ⟨w2, hne, hsuf, rfl⟩
      · left; exact h3
      · right
        exact ⟨w2, hne, hsuf.trans (List.suffix_cons c wr), rfl⟩

theorem subAux_copy_head {wb : Bool} {p : P Unit} {repl : Chars}
    {prev : Option Char} {c : Char} {l : Chars} {fuel : Nat}
    (h : (if !wb || prevNonWord prev then p (c :: l) else []) = []) :
    subAux wb p repl prev (c :: l) (fuel + 1) =
      c :: subAux wb p repl (some c) l fuel := by
  rw [subAux_cons_eq, h]

/-- Copy an unmatched chunk `w` of the input, then continue. -/
theorem subAux_copy_until (wb : Bool) (p : P Unit) (repl : Chars) :
    ∀ (w l : Chars) (prev : Option Char) (fuel : Nat),
    (∀ s : Chars, s.IsSuffix (w ++ l) → l.length < s.length → p s = []) →
    subAux wb p repl prev (w ++ l) (w.length + fuel) =
      w ++ subAux wb p repl
        (match w.getLast? with
          | some c => some c
          | none => prev) l fuel := by
  intro w
  induction w with
  | nil =>
    intro l prev fuel _
    simp
  | cons c wr ih =>
    intro l prev fuel hfail
    have hlen : (c :: wr).length + fuel = (wr.length + fuel) + 1 := by
      simp
      omega
    rw [hlen, List.cons_append]
    have hp : (if !wb || prevNonWord prev then p (c :: (wr ++ l)) else []) = [] := by
      split
      · exact hfail _ (List.suffix_refl _) (by simp; omega)
      · rfl
    rw [subAux_copy_head hp]
    rw [ih l (some c) fuel
      (fun s hs hlt => hfail s (hs.trans (List.suffix_cons c (wr ++ l))) hlt)]
    cases wr with
    | nil => simp
    | cons c2 wr2 =>
      have hgl : (c :: c2 :: wr2).getLast? = (c2 :: wr2).getLast? :=
        List.getLast?_cons_cons
      rw [List.cons_append, hgl]
      rcases hx : (c2 :: wr2).getLast? with _ | x
      · simp at hx
      · rfl

theorem wsPlus_single_space {d : Char} {r : Chars} (hd : isPyWs d = false) :
    wsPlus (' ' :: d :: r) = [((), d :: r)] := by
  have hsp : isPyWs ' ' = true := by decide
  have h1 : (' ' :: d :: r).takeWhile isPyWs = [' '] := by
    rw [List.takeWhile_cons, if_pos hsp, List.takeWhile_cons,
      if_neg (by simp [hd])]
  have h2 : (' ' :: d :: r).dropWhile isPyWs = d :: r := by
    rw [List.dropWhile_cons, if_pos hsp, List.dropWhile_cons,
      if_neg (by simp [hd])]
  unfold wsPlus pbind pmany1G pmanyG
  simp [h1, h2, ppure, List.range_succ]

/-- Whitespace collapsing keeps `word ++ " " ++ digits` fixed. -/
theorem collapseWs_keep {w : Chars} (hw : ∀ c ∈ w, isPyWs c = false)
    {d : Char} {r : Chars} (hd : d.isDigit = true)
    (hr : ∀ c ∈ r, c.isDigit = true) :
    collapseWs (w ++ ' ' :: d :: r) = w ++ ' ' :: d :: r := by
  unfold collapseWs psub
  have hlen : (w ++ ' ' :: d :: r).length + 1 = w.length + ((d :: r).length + 2) := by
    simp
    omega
  rw [hlen]
  rw [subAux_copy_until false wsPlus [' '] w (' ' :: d :: r) none
    ((d :: r).length + 2) ?hfail]
  case hfail =>
    intro s hs hlt
    rcases suffix_append_cases hs with hsl | ⟨w2, hne, hsuf, rfl⟩
    · exact absurd (List.IsSuffix.length_le hsl) (by omega)
    · cases w2 with
      | nil => exact absurd rfl hne
      | cons cw w2r =>
        exact wsPlus_head_fail (hw cw (hsuf.subset (List.mem_cons_self cw w2r)))
  have hstep : (d :: r).length + 2 = ((d :: r).length + 1) + 1 := rfl
  rw [hstep, subAux_cons_eq]
  have hcond : (!false || prevNonWord
      (match w.getLast? with
        | some c => some c
        | none => none)) = true := by
    simp
  rw [if_pos hcond]
  rw [wsPlus_single_space (digit_not_ws d hd)]
  have hn : (' ' :: d :: r).length - (d :: r).length = 1 := by
    simp
  simp only [hn]
  have h1 : (1 = 0) = False := by simp
  rw [if_neg (by simp)]
  have htake : ((' ' :: d :: r).take 1).getLast? = some ' ' := rfl
  rw [htake]
  rw [subAux_id false wsPlus [' '] ((d :: r).length + 1) (d :: r) (some ' ')
    (wsPlus_fail_digits (by
      intro c hc
      rcases List.mem_cons.mp hc with rfl | hc2
      · exact hd
      · exact hr c hc2))]
  simp

theorem pyStrip_id {l : Chars}
    (h1 : ∀ c, l.head? = some c → isPyWs c = false)
    (h2 : ∀ c, l.getLast? = some c → isPyWs c = false) : pyStrip l = l := by
  unfold pyStrip
  rcases l with _ | ⟨c, r⟩
  · rfl
  · have hc := h1 c rfl
    rw [List.dropWhile_cons, if_neg (by simp [hc])]
    rcases hrev : (c :: r).reverse with _ | ⟨x, xs⟩
    · exact absurd hrev (by simp)
    · have hx : (c :: r).getLast? = some x := by
        rw [← List.head?_reverse, hrev]
        rfl
      have hxw := h2 x hx
      rw [List.dropWhile_cons, if_neg (by simp [hxw]), ← hrev,
        List.reverse_reverse]

theorem plitCIc_self_append : ∀ l rest : Chars, plitCIc l (l ++ rest) = [(l, rest)] := by
  intro l
  induction l with
  | nil => intro rest; rfl
  | cons c r ih =>
    intro rest
    unfold plitCIc pbind
    rw [List.cons_append, @pch_pos (fun d => ciEq d c) c (r ++ rest) (ciEq_refl c)]
    simp [ih, pbind, ppure]

/-- `pbind` through a single-candidate parser. -/
theorem pbind_singleton {α β : Type} (p : P α) (f : α → P β) (cs : Chars)
    (a : α) (rest : Chars) (h : p cs = [(a, rest)]) :
    pbind p f cs = f a rest := by
  unfold pbind
  rw [h]
  simp

/-- On `ABBREV<space><digit>...` the abbreviation pattern matches: the
trailing word boundary holds and the `(?!\s*:)` lookahead succeeds. -/
theorem abbrevPat_match_space {s : String} {d : Char} {r : Chars}
    (hd : d.isDigit = true) :
    abbrevPat s (s.data ++ ' ' :: d :: r) = [((), ' ' :: d :: r)] := by
  have hdw : isPyWs d = false := digit_not_ws d hd
  have hne : ¬ d = ':' := by
    intro h
    rw [h] at hd
    exact absurd hd (by decide)
  have htake : (' ' :: d :: r).takeWhile isPyWs = [' '] := by
    rw [List.takeWhile_cons, if_pos (by decide), List.takeWhile_cons,
      if_neg (by simp [hdw])]
  have hdrop : (' ' :: d :: r).dropWhile isPyWs = d :: r := by
    rw [List.dropWhile_cons, if_pos (by decide), List.dropWhile_cons,
      if_neg (by simp [hdw])]
  have hlit : plitCI s.data (s.data ++ ' ' :: d :: r) = [((), ' ' :: d :: r)] := by
    unfold plitCI
    rw [pbind_singleton (plitCIc s.data) _ _ _ _ (plitCIc_self_append s.data _)]
    rfl
  have hwb : pwbAfterWord (' ' :: d :: r) = [((), ' ' :: d :: r)] := by
    simp [pwbAfterWord, (by decide : isWordChar ' ' = false)]
  have hinner : (pbind (pmanyG isPyWs) fun _ => pch (fun c => c = ':'))
      (' ' :: d :: r) = [] := by
    unfold pbind pmanyG
    simp only [htake, hdrop]
    simp [List.range_succ, pch, hne]
  unfold abbrevPat
  rw [pbind_singleton _ _ _ _ _ hlit, pbind_singleton _ _ _ _ _ hwb]
  unfold pnot
  rw [hinner]

/-- On `ABBREV:` the `(?!\s*:)` lookahead fails, so the whole pattern
fails: abbreviations already followed by a colon are left alone. -/
theorem abbrevPat_fail_colon (s : String) (l : Chars) :
    abbrevPat s (s.data ++ ':' :: l) = [] := by
  have htake : (':' :: l).takeWhile isPyWs = [] := by
    rw [List.takeWhile_cons, if_neg (by decide)]
  have hdrop : (':' :: l).dropWhile isPyWs = ':' :: l := by
    rw [List.dropWhile_cons, if_neg (by decide)]
  have hlit : plitCI s.data (s.data ++ ':' :: l) = [((), ':' :: l)] := by
    unfold plitCI
    rw [pbind_singleton (plitCIc s.data) _ _ _ _ (plitCIc_self_append s.data _)]
    rfl
  have hwb : pwbAfterWord (':' :: l) = [((), ':' :: l)] := by
    simp [pwbAfterWord, (by decide : isWordChar ':' = false)]
  have hinner : (pbind (pmanyG isPyWs) fun _ => pch (fun c => c = ':'))
      (':' :: l) = [(':', l)] := by
    unfold pbind pmanyG
    simp only [htake, hdrop]
    simp [List.range_succ, pch]
  unfold abbrevPat
  rw [pbind_singleton _ _ _ _ _ hlit, pbind_singleton _ _ _ _ _ hwb]
  unfold pnot
  rw [hinner]

theorem mem_of_getLast : ∀ (l : Chars) (c : Char), l.getLast? = some c → c ∈ l
  | [], _, h => by cases h
  | [a], c, h => by
    cases h
    exact List.mem_singleton.mpr rfl
  | a :: b :: t, c, h => by
    have h2 : (b :: t).getLast? = some c := by
      rw [← List.getLast?_cons_cons]
      exact h
    exact List.mem_cons_of_mem a (mem_of_getLast (b :: t) c h2)

/-- A pattern that fails on every nonempty suffix of the word part and on
every all-digit tail fails on every suffix of `word ++ digits`. -/
theorem abbrev_fail_on_word_digits {a : String} {c0 : Char} {lit : Chars}
    (hs : a.data = c0 :: lit) (hc0 : c0.toLower.isDigit = false)
    {w nd : Chars}
    (hfails : ∀ (w2 l : Chars), w2 ≠ [] → w2.IsSuffix w →
      abbrevPat a (w2 ++ l) = [])
    (hnd : ∀ c ∈ nd, c.isDigit = true) :
    ∀ s, s.IsSuffix (w ++ nd) → abbrevPat a s = [] := by
  intro s hsuf
  rcases suffix_append_cases hsuf with h | ⟨w2, hne, hw2, rfl⟩
  · exact abbrevPat_fail_digits hs hc0 hnd s h
  · exact hfails w2 nd hne hw2

/-- One `re.sub` pass that rewrites the bare abbreviation at the head of
`ABBREV <digits>` and leaves the numeric tail untouched. -/
theorem psub_abbrev_insert {s : String} {c0 : Char} {lit : Chars}
    (hs : s.data = c0 :: lit) (hsp : ciEq ' ' c0 = false)
    (hc0 : c0.toLower.isDigit = false)
    (repl : Chars) {d : Char} {r : Chars}
    (hd : d.isDigit = true) (hr : ∀ c ∈ r, c.isDigit = true) :
    psub true (abbrevPat s) repl (s.data ++ ' ' :: d :: r) =
      repl ++ ' ' :: d :: r := by
  unfold psub
  have hmatch : abbrevPat s (c0 :: (lit ++ ' ' :: d :: r)) = [((), ' ' :: d :: r)] := by
    have h0 := @abbrevPat_match_space s d r hd
    rw [hs, List.cons_append] at h0
    exact h0
  rw [hs, List.cons_append, subAux_cons_eq]
  have hg : (if (!true || prevNonWord none) = true
      then abbrevPat s (c0 :: (lit ++ ' ' :: d :: r)) else []) =
      abbrevPat s (c0 :: (lit ++ ' ' :: d :: r)) := if_pos rfl
  rw [hg, hmatch]
  have hn : (c0 :: (lit ++ ' ' :: d :: r)).length - (' ' :: d :: r).length =
      lit.length + 1 := by
    simp
    omega
  simp only [hn]
  rw [if_neg (by omega)]
  have hdr : ∀ c ∈ d :: r, c.isDigit = true := by
    intro c hc
    rcases List.mem_cons.mp hc with rfl | hc2
    · exact hd
    · exact hr c hc2
  have htail : ∀ su : Chars, su.IsSuffix (' ' :: d :: r) → abbrevPat s su = [] := by
    apply suffix_fail_cons
    · exact abbrevPat_fail_head hs hsp
    · exact abbrevPat_fail_digits hs hc0 hdr
  rw [subAux_id true (abbrevPat s) repl _ (' ' :: d :: r) _ htail]

theorem failsBP_on_BPcolon : ∀ (w2 l : Chars), w2 ≠ [] → w2.IsSuffix ['B', 'P', ':', ' '] →
    abbrevPat "BP" (w2 ++ l) = [] := by
  intro w2 l hne hsuf
  simp only [List.suffix_cons_iff, List.suffix_nil] at hsuf
  rcases hsuf with rfl | rfl | rfl | rfl | rfl
  · exact abbrevPat_fail_colon "BP" (' ' :: l)
  · exact abbrevPat_fail_head (show ("BP" : String).data = 'B' :: ['P'] from rfl) (by decide)
  · exact abbrevPat_fail_head (show ("BP" : String).data = 'B' :: ['P'] from rfl) (by decide)
  · exact abbrevPat_fail_head (show ("BP" : String).data = 'B' :: ['P'] from rfl) (by decide)
  · exact absurd rfl hne

theorem failsPR_on_BPcolon : ∀ (w2 l : Chars), w2 ≠ [] → w2.IsSuffix ['B', 'P', ':', ' '] →
    abbrevPat "PR" (w2 ++ l) = [] := by
  intro w2 l hne hsuf
  simp only [List.suffix_cons_iff, List.suffix_nil] at hsuf
  rcases hsuf with rfl | rfl | rfl | rfl | rfl
  · exact abbrevPat_fail_head (show ("PR" : String).data = 'P' :: ['R'] from rfl) (by decide)
  · exact abbrevPat_fail_second (show ("PR" : String).data = 'P' :: 'R' :: [] from rfl) (by decide) (by decide)
  · exact abbrevPat_fail_head (show ("PR" : String).data = 'P' :: ['R'] from rfl) (by decide)
  · exact abbrevPat_fail_head (show ("PR" : String).data = 'P' :: ['R'] from rfl) (by decide)
  · exact absurd rfl hne

theorem failsRBS_on_BPcolon : ∀ (w2 l : Chars), w2 ≠ [] → w2.IsSuffix ['B', 'P', ':', ' '] →
    abbrevPat "RBS" (w2 ++ l) = [] := by
  intro w2 l hne hsuf
  simp only [List.suffix_cons_iff, List.suffix_nil] at hsuf
  rcases hsuf with rfl | rfl | rfl | rfl | rfl
  · exact abbrevPat_fail_head (show ("RBS" : String).data = 'R' :: ['B', 'S'] from rfl) (by decide)
  · exact abbrevPat_fail_head (show ("RBS" : String).data = 'R' :: ['B', 'S'] from rfl) (by decide)
  · exact abbrevPat_fail_head (show ("RBS" : String).data = 'R' :: ['B', 'S'] from rfl) (by decide)
  · exact abbrevPat_fail_head (show ("RBS" : String).data = 'R' :: ['B', 'S'] from rfl) (by decide)
  · exact absurd rfl hne

theorem failsBP_on_PRcolon : ∀ (w2 l : Chars), w2 ≠ [] → w2.IsSuffix ['P', 'R', ':', ' '] →
    abbrevPat "BP" (w2 ++ l) = [] := by
  intro w2 l hne hsuf
  simp only [List.suffix_cons_iff, List.suffix_nil] at hsuf
  rcases hsuf with rfl | rfl | rfl | rfl | rfl
  · exact abbrevPat_fail_head (show ("BP" : String).data = 'B' :: ['P'] from rfl) (by decide)
  · exact abbrevPat_fail_head (show ("BP" : String).data = 'B' :: ['P'] from rfl) (by decide)
  · exact abbrevPat_fail_head (show ("BP" : String).data = 'B' :: ['P'] from rfl) (by decide)
  · exact abbrevPat_fail_head (show ("BP" : String).data = 'B' :: ['P'] from rfl) (by decide)
  · exact absurd rfl hne

theorem failsPR_on_PRcolon : ∀ (w2 l : Chars), w2 ≠ [] → w2.IsSuffix ['P', 'R', ':', ' '] →
    abbrevPat "PR" (w2 ++ l) = [] := by
  intro w2 l hne hsuf
  simp only [List.suffix_cons_iff, List.suffix_nil] at hsuf
  rcases hsuf with rfl | rfl | rfl | rfl | rfl
  · exact abbrevPat_fail_colon "PR" (' ' :: l)
  · exact abbrevPat_fail_head (show ("PR" : String).data = 'P' :: ['R'] from rfl) (by decide)
  · exact abbrevPat_fail_head (show ("PR" : String).data = 'P' :: ['R'] from rfl) (by decide)
  · exact abbrevPat_fail_head (show ("PR" : String).data = 'P' :: ['R'] from rfl) (by decide)
  · exact absurd rfl hne

theorem failsRBS_on_PRcolon : ∀ (w2 l : Chars), w2 ≠ [] → w2.IsSuffix ['P', 'R', ':', ' '] →
    abbrevPat "RBS" (w2 ++ l) = [] := by
  intro w2 l hne hsuf
  simp only [List.suffix_cons_iff, List.suffix_nil] at hsuf
  rcases hsuf with rfl | rfl | rfl | rfl | rfl
  · exact abbrevPat_fail_head (show ("RBS" : String).data = 'R' :: ['B', 'S'] from rfl) (by decide)
  · exact abbrevPat_fail_second (show ("RBS" : String).data = 'R' :: 'B' :: ['S'] from rfl) (by decide) (by decide)
  · exact abbrevPat_fail_head (show ("RBS" : String).data = 'R' :: ['B', 'S'] from rfl) (by decide)
  · exact abbrevPat_fail_head (show ("RBS" : String).data = 'R' :: ['B', 'S'] from rfl) (by decide)
  · exact absurd rfl hne

theorem failsBP_on_RBScolon : ∀ (w2 l : Chars), w2 ≠ [] → w2.IsSuffix ['R', 'B', 'S', ':', ' '] →
    abbrevPat "BP" (w2 ++ l) = [] := by
  intro w2 l hne hsuf
  simp only [List.suffix_cons_iff, List.suffix_nil] at hsuf
  rcases hsuf with rfl | rfl | rfl | rfl | rfl | rfl
  · exact abbrevPat_fail_head (show ("BP" : String).data = 'B' :: ['P'] from rfl) (by decide)
  · exact abbrevPat_fail_second (show ("BP" : String).data = 'B' :: 'P' :: [] from rfl) (by decide) (by decide)
  · exact abbrevPat_fail_head (show ("BP" : String).data = 'B' :: ['P'] from rfl) (by decide)
  · exact abbrevPat_fail_head (show ("BP" : String).data = 'B' :: ['P'] from rfl) (by decide)
  · exact abbrevPat_fail_head (show ("BP" : String).data = 'B' :: ['P'] from rfl) (by decide)
  · exact absurd rfl hne

theorem failsPR_on_RBScolon : ∀ (w2 l : Chars), w2 ≠ [] → w2.IsSuffix ['R', 'B', 'S', ':', ' '] →
    abbrevPat "PR" (w2 ++ l) = [] := by
  intro w2 l hne hsuf
  simp only [List.suffix_cons_iff, List.suffix_nil] at hsuf
  rcases hsuf with rfl | rfl | rfl | rfl | rfl | rfl
  · exact abbrevPat_fail_head (show ("PR" : String).data = 'P' :: ['R'] from rfl) (by decide)
  · exact abbrevPat_fail_head (show ("PR" : String).data = 'P' :: ['R'] from rfl) (by decide)
  · exact abbrevPat_fail_head (show ("PR" : String).data = 'P' :: ['R'] from rfl) (by decide)
  · exact abbrevPat_fail_head (show ("PR" : String).data = 'P' :: ['R'] from rfl) (by decide)
  · exact abbrevPat_fail_head (show ("PR" : String).data = 'P' :: ['R'] from rfl) (by decide)
  · exact absurd rfl hne

theorem failsRBS_on_RBScolon : ∀ (w2 l : Chars), w2 ≠ [] → w2.IsSuffix ['R', 'B', 'S', ':', ' '] →
    abbrevPat "RBS" (w2 ++ l) = [] := by
  intro w2 l hne hsuf
  simp only [List.suffix_cons_iff, List.suffix_nil] at hsuf
  rcases hsuf with rfl | rfl | rfl | rfl | rfl | rfl
  · exact abbrevPat_fail_colon "RBS" (' ' :: l)
  · exact abbrevPat_fail_head (show ("RBS" : String).data = 'R' :: ['B', 'S'] from rfl) (by decide)
  · exact abbrevPat_fail_head (show ("RBS" : String).data = 'R' :: ['B', 'S'] from rfl) (by decide)
  · exact abbrevPat_fail_head (show ("RBS" : String).data = 'R' :: ['B', 'S'] from rfl) (by decide)
  · exact abbrevPat_fail_head (show ("RBS" : String).data = 'R' :: ['B', 'S'] from rfl) (by decide)
  · exact absurd rfl hne

theorem failsBP_on_PRword : ∀ (w2 l : Chars), w2 ≠ [] → w2.IsSuffix ['P', 'R', ' '] →
    abbrevPat "BP" (w2 ++ l) = [] := by
  intro w2 l hne hsuf
  simp only [List.suffix_cons_iff, List.suffix_nil] at hsuf
  rcases hsuf with rfl | rfl | rfl | rfl
  · exact abbrevPat_fail_head (show ("BP" : String).data = 'B' :: ['P'] from rfl) (by decide)
  · exact abbrevPat_fail_head (show ("BP" : String).data = 'B' :: ['P'] from rfl) (by decide)
  · exact abbrevPat_fail_head (show ("BP" : String).data = 'B' :: ['P'] from rfl) (by decide)
  · exact absurd rfl hne

theorem failsBP_on_RBSword : ∀ (w2 l : Chars), w2 ≠ [] → w2.IsSuffix ['R', 'B', 'S', ' '] →
    abbrevPat "BP" (w2 ++ l) = [] := by
  intro w2 l hne hsuf
  simp only [List.suffix_cons_iff, List.suffix_nil] at hsuf
  rcases hsuf with rfl | rfl | rfl | rfl | rfl
  · exact abbrevPat_fail_head (show ("BP" : String).data = 'B' :: ['P'] from rfl) (by decide)
  · exact abbrevPat_fail_second (show ("BP" : String).data = 'B' :: 'P' :: [] from rfl) (by decide) (by decide)
  · exact abbrevPat_fail_head (show ("BP" : String).data = 'B' :: ['P'] from rfl) (by decide)
  · exact abbrevPat_fail_head (show ("BP" : String).data = 'B' :: ['P'] from rfl) (by decide)
  · exact absurd rfl hne

theorem failsPR_on_RBSword : ∀ (w2 l : Chars), w2 ≠ [] → w2.IsSuffix ['R', 'B', 'S', ' '] →
    abbrevPat "PR" (w2 ++ l) = [] := by
  intro w2 l hne hsuf
  simp only [List.suffix_cons_iff, List.suffix_nil] at hsuf
  rcases hsuf with rfl | rfl | rfl | rfl | rfl
  · exact abbrevPat_fail_head (show ("PR" : String).data = 'P' :: ['R'] from rfl) (by decide)
  · exact abbrevPat_fail_head (show ("PR" : String).data = 'P' :: ['R'] from rfl) (by decide)
  · exact abbrevPat_fail_head (show ("PR" : String).data = 'P' :: ['R'] from rfl) (by decide)
  · exact abbrevPat_fail_head (show ("PR" : String).data = 'P' :: ['R'] from rfl) (by decide)
  · exact absurd rfl hne

theorem strip_collapse_word_digits {w : Chars} (hw : ∀ c ∈ w, isPyWs c = false)
    (hwne : w ≠ []) {d : Char} {r : Chars} (hd : d.isDigit = true)
    (hr : ∀ c ∈ r, c.isDigit = true) :
    pyStrip (collapseWs (w ++ ' ' :: d :: r)) = w ++ ' ' :: d :: r := by
  rw [@collapseWs_keep w hw d r hd hr]
  apply pyStrip_id
  · intro c hc
    cases w with
    | nil => exact absurd rfl hwne
    | cons cw wr =>
      rw [List.cons_append, List.head?_cons] at hc
      cases hc
      exact hw _ (List.mem_cons_self _ _)
  · intro c hc
    rw [List.getLast?_append_cons, List.getLast?_cons_cons] at hc
    rcases List.mem_cons.mp (mem_of_getLast (d :: r) c hc) with rfl | hm
    · exact digit_not_ws c hd
    · exact digit_not_ws c (hr c hm)

/-- C6. The normalizer does not expand "BP:"/"PR:"/"RBS:" to verbose
phrases.  `clean_medical_text` works in the opposite direction: a bare
abbreviation directly followed by a numeric value gains a colon
("BP 120" becomes "BP: 120", likewise PR and RBS), while occurrences
already followed by a colon are left unchanged; numeric content is
preserved and the output never contains "blood pressure is". -/
theorem C6_normalizer_inserts_colon (n : String) (hne : n.data ≠ [])
    (hdig : ∀ c ∈ n.data, c.isDigit = true) :
    clean_medical_text ("BP " ++ n) = "BP: " ++ n ∧
    clean_medical_text ("PR " ++ n) = "PR: " ++ n ∧
    clean_medical_text ("RBS " ++ n) = "RBS: " ++ n ∧
    clean_medical_text ("BP: " ++ n) = "BP: " ++ n ∧
    clean_medical_text ("PR: " ++ n) = "PR: " ++ n ∧
    clean_medical_text ("RBS: " ++ n) = "RBS: " ++ n := by
  obtain ⟨l⟩ := n
  rcases l with _ | ⟨d, r⟩
  · exact absurd rfl hne
  have hdr : ∀ c ∈ d :: r, c.isDigit = true := hdig
  have hd : d.isDigit = true := hdr d (List.mem_cons_self d r)
  have hr : ∀ c ∈ r, c.isDigit = true := fun c hc => hdr c (List.mem_cons_of_mem d hc)
  have hBPid : psub true (abbrevPat "BP") "BP:".data ('B' :: 'P' :: ':' :: ' ' :: d :: r) =
      'B' :: 'P' :: ':' :: ' ' :: d :: r :=
    psub_id true (abbrevPat "BP") "BP:".data _
      (abbrev_fail_on_word_digits (show ("BP" : String).data = 'B' :: ['P'] from rfl)
        (by decide) failsBP_on_BPcolon hdr)
  have hPRonBP : psub true (abbrevPat "PR") "PR:".data ('B' :: 'P' :: ':' :: ' ' :: d :: r) =
      'B' :: 'P' :: ':' :: ' ' :: d :: r :=
    psub_id true (abbrevPat "PR") "PR:".data _
      (abbrev_fail_on_word_digits (show ("PR" : String).data = 'P' :: ['R'] from rfl)
        (by decide) failsPR_on_BPcolon hdr)
  have hRBSonBP : psub true (abbrevPat "RBS") "RBS:".data ('B' :: 'P' :: ':' :: ' ' :: d :: r) =
      'B' :: 'P' :: ':' :: ' ' :: d :: r :=
    psub_id true (abbrevPat "RBS") "RBS:".data _
      (abbrev_fail_on_word_digits (show ("RBS" : String).data = 'R' :: ['B', 'S'] from rfl)
        (by decide) failsRBS_on_BPcolon hdr)
  have hPRid : psub true (abbrevPat "PR") "PR:".data ('P' :: 'R' :: ':' :: ' ' :: d :: r) =
      'P' :: 'R' :: ':' :: ' ' :: d :: r :=
    psub_id true (abbrevPat "PR") "PR:".data _
      (abbrev_fail_on_word_digits (show ("PR" : String).data = 'P' :: ['R'] from rfl)
        (by decide) failsPR_on_PRcolon hdr)
  have hBPonPR : psub true (abbrevPat "BP") "BP:".data ('P' :: 'R' :: ':' :: ' ' :: d :: r) =
      'P' :: 'R' :: ':' :: ' ' :: d :: r :=
    psub_id true (abbrevPat "BP") "BP:".data _
      (abbrev_fail_on_word_digits (show ("BP" : String).data = 'B' :: ['P'] from rfl)
        (by decide) failsBP_on_PRcolon hdr)
  have hRBSonPR : psub true (abbrevPat "RBS") "RBS:".data ('P' :: 'R' :: ':' :: ' ' :: d :: r) =
      'P' :: 'R' :: ':' :: ' ' :: d :: r :=
    psub_id true (abbrevPat "RBS") "RBS:".data _
      (abbrev_fail_on_word_digits (show ("RBS" : String).data = 'R' :: ['B', 'S'] from rfl)
        (by decide) failsRBS_on_PRcolon hdr)
  have hRBSid : psub true (abbrevPat "RBS") "RBS:".data ('R' :: 'B' :: 'S' :: ':' :: ' ' :: d :: r) =
      'R' :: 'B' :: 'S' :: ':' :: ' ' :: d :: r :=
    psub_id true (abbrevPat "RBS") "RBS:".data _
      (abbrev_fail_on_word_digits (show ("RBS" : String).data = 'R' :: ['B', 'S'] from rfl)
        (by decide) failsRBS_on_RBScolon hdr)
  have hBPonRBS : psub true (abbrevPat "BP") "BP:".data ('R' :: 'B' :: 'S' :: ':' :: ' ' :: d :: r) =
      'R' :: 'B' :: 'S' :: ':' :: ' ' :: d :: r :=
    psub_id true (abbrevPat "BP") "BP:".data _
      (abbrev_fail_on_word_digits (show ("BP" : String).data = 'B' :: ['P'] from rfl)
        (by decide) failsBP_on_RBScolon hdr)
  have hPRonRBS : psub true (abbrevPat "PR") "PR:".data ('R' :: 'B' :: 'S' :: ':' :: ' ' :: d :: r) =
      'R' :: 'B' :: 'S' :: ':' :: ' ' :: d :: r :=
    psub_id true (abbrevPat "PR") "PR:".data _
      (abbrev_fail_on_word_digits (show ("PR" : String).data = 'P' :: ['R'] from rfl)
        (by decide) failsPR_on_RBScolon hdr)
  refine ⟨?_, ?_, ?_, ?_, ?_, ?_⟩
  · show String.mk (psub true (abbrevPat "RBS") "RBS:".data
        (psub true (abbrevPat "PR") "PR:".data
          (psub true (abbrevPat "BP") "BP:".data
            (pyStrip (collapseWs ('B' :: 'P' :: ' ' :: d :: r)))))) =
      String.mk ('B' :: 'P' :: ':' :: ' ' :: d :: r)
    have h0 : pyStrip (collapseWs ('B' :: 'P' :: ' ' :: d :: r)) =
        'B' :: 'P' :: ' ' :: d :: r :=
      @strip_collapse_word_digits ['B', 'P'] (by decide) (by decide) d r hd hr
    have h1 : psub true (abbrevPat "BP") "BP:".data ('B' :: 'P' :: ' ' :: d :: r) =
        'B' :: 'P' :: ':' :: ' ' :: d :: r :=
      psub_abbrev_insert (show ("BP" : String).data = 'B' :: ['P'] from rfl)
        (by decide) (by decide) "BP:".data hd hr
    rw [h0, h1, hPRonBP, hRBSonBP]
  · show String.mk (psub true (abbrevPat "RBS") "RBS:".data
        (psub true (abbrevPat "PR") "PR:".data
          (psub true (abbrevPat "BP") "BP:".data
            (pyStrip (collapseWs ('P' :: 'R' :: ' ' :: d :: r)))))) =
      String.mk ('P' :: 'R' :: ':' :: ' ' :: d :: r)
    have h0 : pyStrip (collapseWs ('P' :: 'R' :: ' ' :: d :: r)) =
        'P' :: 'R' :: ' ' :: d :: r :=
      @strip_collapse_word_digits ['P', 'R'] (by decide) (by decide) d r hd hr
    have h1 : psub true (abbrevPat "BP") "BP:".data ('P' :: 'R' :: ' ' :: d :: r) =
        'P' :: 'R' :: ' ' :: d :: r :=
      psub_id true (abbrevPat "BP") "BP:".data _
        (abbrev_fail_on_word_digits (show ("BP" : String).data = 'B' :: ['P'] from rfl)
          (by decide) failsBP_on_PRword hdr)
    have h2 : psub true (abbrevPat "PR") "PR:".data ('P' :: 'R' :: ' ' :: d :: r) =
        'P' :: 'R' :: ':' :: ' ' :: d :: r :=
      psub_abbrev_insert (show ("PR" : String).data = 'P' :: ['R'] from rfl)
        (by decide) (by decide) "PR:".data hd hr
    rw [h0, h1, h2, hRBSonPR]
  · show String.mk (psub true (abbrevPat "RBS") "RBS:".data
        (psub true (abbrevPat "PR") "PR:".data
          (psub true (abbrevPat "BP") "BP:".data
            (pyStrip (collapseWs ('R' :: 'B' :: 'S' :: ' ' :: d :: r)))))) =
      String.mk ('R' :: 'B' :: 'S' :: ':' :: ' ' :: d :: r)
    have h0 : pyStrip (collapseWs ('R' :: 'B' :: 'S' :: ' ' :: d :: r)) =
        'R' :: 'B' :: 'S' :: ' ' :: d :: r :=
      @strip_collapse_word_digits ['R', 'B', 'S'] (by decide) (by decide) d r hd hr
    have h1 : psub true (abbrevPat "BP") "BP:".data ('R' :: 'B' :: 'S' :: ' ' :: d :: r) =
        'R' :: 'B' :: 'S' :: ' ' :: d :: r :=
      psub_id true (abbrevPat "BP") "BP:".data _
        (abbrev_fail_on_word_digits (show ("BP" : String).data = 'B' :: ['P'] from rfl)
          (by decide) failsBP_on_RBSword hdr)
    have h2 : psub true (abbrevPat "PR") "PR:".data ('R' :: 'B' :: 'S' :: ' ' :: d :: r) =
        'R' :: 'B' :: 'S' :: ' ' :: d :: r :=
      psub_id true (abbrevPat "PR") "PR:".data _
        (abbrev_fail_on_word_digits (show ("PR" : String).data = 'P' :: ['R'] from rfl)
          (by decide) failsPR_on_RBSword hdr)
    have h3 : psub true (abbrevPat "RBS") "RBS:".data ('R' :: 'B' :: 'S' :: ' ' :: d :: r) =
        'R' :: 'B' :: 'S' :: ':' :: ' ' :: d :: r :=
      psub_abbrev_insert (show ("RBS" : String).data = 'R' :: ['B', 'S'] from rfl)
        (by decide) (by decide) "RBS:".data hd hr
    rw [h0, h1, h2, h3]
  · show String.mk (psub true (abbrevPat "RBS") "RBS:".data
        (psub true (abbrevPat "PR") "PR:".data
          (psub true (abbrevPat "BP") "BP:".data
            (pyStrip (collapseWs ('B' :: 'P' :: ':' :: ' ' :: d :: r)))))) =
      String.mk ('B' :: 'P' :: ':' :: ' ' :: d :: r)
    have h0 : pyStrip (collapseWs ('B' :: 'P' :: ':' :: ' ' :: d :: r)) =
        'B' :: 'P' :: ':' :: ' ' :: d :: r :=
      @strip_collapse_word_digits ['B', 'P', ':'] (by decide) (by decide) d r hd hr
    rw [h0, hBPid, hPRonBP, hRBSonBP]
  · show String.mk (psub true (abbrevPat "RBS") "RBS:".data
        (psub true (abbrevPat "PR") "PR:".data
          (psub true (abbrevPat "BP") "BP:".data
            (pyStrip (collapseWs ('P' :: 'R' :: ':' :: ' ' :: d :: r)))))) =
      String.mk ('P' :: 'R' :: ':' :: ' ' :: d :: r)
    have h0 : pyStrip (collapseWs ('P' :: 'R' :: ':' :: ' ' :: d :: r)) =
        'P' :: 'R' :: ':' :: ' ' :: d :: r :=
      @strip_collapse_word_digits ['P', 'R', ':'] (by decide) (by decide) d r hd hr
    rw [h0, hBPonPR, hPRid, hRBSonPR]
  · show String.mk (psub true (abbrevPat "RBS") "RBS:".data
        (psub true (abbrevPat "PR") "PR:".data
          (psub true (abbrevPat "BP") "BP:".data
            (pyStrip (collapseWs ('R' :: 'B' :: 'S' :: ':' :: ' ' :: d :: r)))))) =
      String.mk ('R' :: 'B' :: 'S' :: ':' :: ' ' :: d :: r)
    have h0 : pyStrip (collapseWs ('R' :: 'B' :: 'S' :: ':' :: ' ' :: d :: r)) =
        'R' :: 'B' :: 'S' :: ':' :: ' ' :: d :: r :=
      @strip_collapse_word_digits ['R', 'B', 'S', ':'] (by decide) (by decide) d r hd hr
    rw [h0, hBPonRBS, hPRonRBS, hRBSid]

/-- Witness for C6: the normalizer family theorem instantiated at the
concrete value "120". -/
theorem C6_witness :
    clean_medical_text ("BP " ++ "120") = "BP: " ++ "120" ∧
    clean_medical_text ("PR " ++ "120") = "PR: " ++ "120" ∧
    clean_medical_text ("RBS " ++ "120") = "RBS: " ++ "120" ∧
    clean_medical_text ("BP: " ++ "120") = "BP: " ++ "120" ∧
    clean_medical_text ("PR: " ++ "120") = "PR: " ++ "120" ∧
    clean_medical_text ("RBS: " ++ "120") = "RBS: " ++ "120" :=
  C6_normalizer_inserts_colon "120" (by decide) (by decide)

/-- C6 counterexample: on "BP: 120" the normalizer leaves "BP:" verbatim
in its output and never introduces the phrase "blood pressure is". -/
theorem C6_counterexample :
    clean_medical_text "BP: 120" = "BP: 120" ∧
    pyIn "BP:".data (clean_medical_text "BP: 120").data = true ∧
    pyIn "blood pressure is".data (clean_medical_text "BP: 120").data = false := by
  refine ⟨?_, ?_, ?_⟩ <;> decide!

theorem plitCI_append (l rest : Chars) : plitCI l (l ++ rest) = [((), rest)] := by
  unfold plitCI
  rw [pbind_singleton _ _ _ _ _ (plitCIc_self_append l rest)]
  rfl

theorem plitCI_nil_fail {c : Char} {t : Chars} : plitCI (c :: t) [] = [] := by
  unfold plitCI
  exact pbind_nil (pbind_nil rfl)

theorem prepCnt_exact {f : Char → Bool} :
    ∀ (l rest : Chars), (∀ c ∈ l, f c = true) →
    prepCnt f l.length (l ++ rest) = [(l, rest)] := by
  intro l
  induction l with
  | nil => intro rest _; rfl
  | cons c t ih =>
    intro rest hall
    show prepCnt f (t.length + 1) (c :: (t ++ rest)) = [(c :: t, rest)]
    unfold prepCnt
    rw [pbind_singleton _ _ _ _ _ (pch_pos (t ++ rest) (hall c (List.mem_cons_self c t)))]
    rw [pbind_singleton _ _ _ _ _ (ih rest (fun x hx => hall x (List.mem_cons_of_mem c hx)))]
    rfl

theorem prepCnt_one_fail {f : Char → Bool} {rest : Chars}
    (hrest : ∀ c, rest.head? = some c → f c = false) :
    prepCnt f 1 rest = [] := by
  unfold prepCnt
  cases rest with
  | nil => rfl
  | cons c r =>
    exact pbind_nil (pch_neg r (hrest c rfl))

theorem prepCnt_fail_after {f : Char → Bool} :
    ∀ {l : Chars} {rest : Chars}, (∀ c ∈ l, f c = true) →
    (∀ c, rest.head? = some c → f c = false) →
    prepCnt f (l.length + 1) (l ++ rest) = [] := by
  intro l
  induction l with
  | nil => intro rest _ hrest; exact prepCnt_one_fail hrest
  | cons c t ih =>
    intro rest hall hrest
    show prepCnt f (t.length + 1 + 1) (c :: (t ++ rest)) = []
    unfold prepCnt
    rw [pbind_singleton _ _ _ _ _ (pch_pos (t ++ rest) (hall c (List.mem_cons_self c t)))]
    exact pbind_nil (ih (fun x hx => hall x (List.mem_cons_of_mem c hx)) hrest)

theorem pd23_two {a b : Char} (ha : a.isDigit = true) (hb : b.isDigit = true)
    {rest : Chars} (hrest : ∀ c, rest.head? = some c → c.isDigit = false) :
    pd23 (a :: b :: rest) = [([a, b], rest)] := by
  have hall : ∀ c ∈ [a, b], c.isDigit = true := by
    intro c hc
    rcases List.mem_cons.mp hc with rfl | hc2
    · exact ha
    · rcases List.mem_cons.mp hc2 with rfl | hc3
      · exact hb
      · exact absurd hc3 (List.not_mem_nil c)
  have h3 : prepCnt Char.isDigit 3 (a :: b :: rest) = [] :=
    prepCnt_fail_after hall hrest
  have h2 : prepCnt Char.isDigit 2 (a :: b :: rest) = [([a, b], rest)] :=
    prepCnt_exact [a, b] rest hall
  unfold pd23 por
  rw [h3, h2]
  rfl

theorem pd23_three {a b c : Char} (ha : a.isDigit = true)
    (hb : b.isDigit = true) (hc : c.isDigit = true) (rest : Chars) :
    pd23 (a :: b :: c :: rest) = [([a, b, c], rest), ([a, b], c :: rest)] := by
  have hall3 : ∀ x ∈ [a, b, c], x.isDigit = true := by
    intro x hx
    rcases List.mem_cons.mp hx with rfl | hx2
    · exact ha
    · rcases List.mem_cons.mp hx2 with rfl | hx3
      · exact hb
      · rcases List.mem_cons.mp hx3 with rfl | hx4
        · exact hc
        · exact absurd hx4 (List.not_mem_nil x)
  have hall2 : ∀ x ∈ [a, b], x.isDigit = true := fun x hx => by
    rcases List.mem_cons.mp hx with rfl | hx2
    · exact ha
    · rcases List.mem_cons.mp hx2 with rfl | hx3
      · exact hb
      · exact absurd hx3 (List.not_mem_nil x)
  have h3 : prepCnt Char.isDigit 3 (a :: b :: c :: rest) = [([a, b, c], rest)] :=
    prepCnt_exact [a, b, c] rest hall3
  have h2 : prepCnt Char.isDigit 2 (a :: b :: c :: rest) = [([a, b], c :: rest)] :=
    prepCnt_exact [a, b] (c :: rest) hall2
  unfold pd23 por
  rw [h3, h2]
  rfl

theorem D23_cases {l : Chars} (h : D23 l) :
    (∃ a b, l = [a, b] ∧ a.isDigit = true ∧ b.isDigit = true) ∨
    (∃ a b c, l = [a, b, c] ∧ a.isDigit = true ∧ b.isDigit = true ∧
      c.isDigit = true) := by
  obtain ⟨hlen, hall⟩ := h
  rcases hlen with h2 | h3
  · obtain ⟨a, b, rfl⟩ := List.length_eq_two.mp h2
    exact Or.inl ⟨a, b, rfl, hall a (by simp), hall b (by simp)⟩
  · obtain ⟨a, b, c, rfl⟩ := List.length_eq_three.mp h3
    exact Or.inr ⟨a, b, c, rfl, hall a (by simp), hall b (by simp),
      hall c (by simp)⟩

theorem pbind_pair {α β : Type} (p : P α) (f : α → P β) (cs : Chars)
    (a1 : α) (r1 : Chars) (a2 : α) (r2 : Chars)
    (h : p cs = [(a1, r1), (a2, r2)]) :
    pbind p f cs = f a1 r1 ++ f a2 r2 := by
  unfold pbind
  rw [h]
  simp

theorem bpGroup_exact {d1 d2 : Chars} (h1 : D23 d1) (h2 : D23 d2) :
    ∃ tl, bpGroup (d1 ++ '/' :: d2) = (d1 ++ '/' :: d2, []) :: tl := by
  rcases D23_cases h1 with ⟨a, b, rfl, ha, hb⟩ | ⟨a, b, c, rfl, ha, hb, hc⟩ <;>
    rcases D23_cases h2 with ⟨p, q, rfl, hp, hq⟩ | ⟨p, q, s, rfl, hp, hq, hs⟩
  · have e1 : pd23 (a :: b :: '/' :: p :: q :: []) = [([a, b], '/' :: p :: q :: [])] :=
      pd23_two ha hb (by intro x hx; cases hx; decide)
    have e2 : pd23 (p :: q :: []) = [([p, q], [])] :=
      pd23_two hp hq (by intro x hx; cases hx)
    refine ⟨[], ?_⟩
    show bpGroup (a :: b :: '/' :: p :: q :: []) = [(a :: b :: '/' :: p :: q :: [], [])]
    unfold bpGroup
    rw [pbind_singleton _ _ _ _ _ e1]
    rw [pbind_singleton _ _ _ _ _
      (@pch_pos (fun x => decide (x = '/')) '/' (p :: q :: []) (by decide))]
    rw [pbind_singleton _ _ _ _ _ e2]
    rfl
  · have e1 : pd23 (a :: b :: '/' :: p :: q :: s :: []) =
        [([a, b], '/' :: p :: q :: s :: [])] :=
      pd23_two ha hb (by intro x hx; cases hx; decide)
    have e2 : pd23 (p :: q :: s :: []) = [([p, q, s], []), ([p, q], s :: [])] :=
      pd23_three hp hq hs []
    refine ⟨[(a :: b :: '/' :: p :: q :: [], [s])], ?_⟩
    show bpGroup (a :: b :: '/' :: p :: q :: s :: []) =
      [(a :: b :: '/' :: p :: q :: s :: [], []), (a :: b :: '/' :: p :: q :: [], [s])]
    unfold bpGroup
    rw [pbind_singleton _ _ _ _ _ e1]
    rw [pbind_singleton _ _ _ _ _
      (@pch_pos (fun x => decide (x = '/')) '/' (p :: q :: s :: []) (by decide))]
    rw [pbind_pair _ _ _ _ _ _ _ e2]
    rfl
  · have e1 : pd23 (a :: b :: c :: '/' :: p :: q :: []) =
        [([a, b, c], '/' :: p :: q :: []), ([a, b], c :: '/' :: p :: q :: [])] :=
      pd23_three ha hb hc ('/' :: p :: q :: [])
    have e2 : pd23 (p :: q :: []) = [([p, q], [])] :=
      pd23_two hp hq (by intro x hx; cases hx)
    have hnc : ¬ c = '/' := by
      intro h
      rw [h] at hc
      exact absurd hc (by decide)
    refine ⟨[], ?_⟩
    show bpGroup (a :: b :: c :: '/' :: p :: q :: []) =
      [(a :: b :: c :: '/' :: p :: q :: [], [])]
    unfold bpGroup
    rw [pbind_pair _ _ _ _ _ _ _ e1]
    rw [pbind_singleton _ _ _ _ _
      (@pch_pos (fun x => decide (x = '/')) '/' (p :: q :: []) (by decide))]
    rw [pbind_singleton _ _ _ _ _ e2]
    rw [pbind_nil (@pch_neg (fun x => decide (x = '/')) c ('/' :: p :: q :: [])
      (decide_eq_false hnc))]
    simp [ppure]
  · have e1 : pd23 (a :: b :: c :: '/' :: p :: q :: s :: []) =
        [([a, b, c], '/' :: p :: q :: s :: []), ([a, b], c :: '/' :: p :: q :: s :: [])] :=
      pd23_three ha hb hc ('/' :: p :: q :: s :: [])
    have e2 : pd23 (p :: q :: s :: []) = [([p, q, s], []), ([p, q], s :: [])] :=
      pd23_three hp hq hs []
    have hnc : ¬ c = '/' := by
      intro h
      rw [h] at hc
      exact absurd hc (by decide)
    refine ⟨[(a :: b :: c :: '/' :: p :: q :: [], [s])], ?_⟩
    show bpGroup (a :: b :: c :: '/' :: p :: q :: s :: []) =
      [(a :: b :: c :: '/' :: p :: q :: s :: [], []),
        (a :: b :: c :: '/' :: p :: q :: [], [s])]
    unfold bpGroup
    rw [pbind_pair _ _ _ _ _ _ _ e1]
    rw [pbind_singleton _ _ _ _ _
      (@pch_pos (fun x => decide (x = '/')) '/' (p :: q :: s :: []) (by decide))]
    rw [pbind_pair _ _ _ _ _ _ _ e2]
    rw [pbind_nil (@pch_neg (fun x => decide (x = '/')) c ('/' :: p :: q :: s :: [])
      (decide_eq_false hnc))]
    simp [ppure]

theorem pmanyG_wsColon_colon {a : Char} (ha : a.isDigit = true) (r : Chars) :
    pmanyG wsColonCh (':' :: a :: r) =
      [([':'], a :: r), ([], ':' :: a :: r)] := by
  have htake : (':' :: a :: r).takeWhile wsColonCh = [':'] := by
    rw [List.takeWhile_cons, if_pos (by decide), List.takeWhile_cons,
      if_neg (by simp [digit_not_wsColon a ha])]
  have hdrop : (':' :: a :: r).dropWhile wsColonCh = a :: r := by
    rw [List.dropWhile_cons, if_pos (by decide), List.dropWhile_cons,
      if_neg (by simp [digit_not_wsColon a ha])]
  unfold pmanyG
  simp only [htake, hdrop]
  simp [List.range_succ]

theorem D23_head : ∀ {l : Chars}, D23 l →
    ∃ a r, a.isDigit = true ∧ l = a :: r := by
  intro l h
  rcases D23_cases h with ⟨a, b, rfl, ha, _⟩ | ⟨a, b, c, rfl, ha, _, _⟩
  · exact ⟨a, [b], ha, rfl⟩
  · exact ⟨a, [b, c], ha, rfl⟩

/-- The first BP pattern `BP[:\s]*(...)` matches `BP:` then the group. -/
theorem bpPat1_head {d1 d2 : Chars} (h1 : D23 d1) (h2 : D23 d2) :
    ∃ tl, labelThen "BP" bpGroup ('B' :: 'P' :: ':' :: (d1 ++ '/' :: d2)) =
      (d1 ++ '/' :: d2, []) :: tl := by
  obtain ⟨tl0, hbg⟩ := bpGroup_exact h1 h2
  obtain ⟨a, r1, ha, hcons⟩ := D23_head h1
  have hlit : plitCI "BP".data ('B' :: 'P' :: ':' :: (d1 ++ '/' :: d2)) =
      [((), ':' :: (d1 ++ '/' :: d2))] :=
    plitCI_append "BP".data (':' :: (d1 ++ '/' :: d2))
  have hmany : pmanyG wsColonCh (':' :: (d1 ++ '/' :: d2)) =
      [([':'], d1 ++ '/' :: d2), ([], ':' :: (d1 ++ '/' :: d2))] := by
    rw [hcons, List.cons_append]
    exact pmanyG_wsColon_colon ha (r1 ++ '/' :: d2)
  refine ⟨tl0 ++ bpGroup (':' :: (d1 ++ '/' :: d2)), ?_⟩
  unfold labelThen
  rw [pbind_singleton _ _ _ _ _ hlit]
  rw [pbind_pair _ _ _ _ _ _ _ hmany]
  rw [hbg, List.cons_append]

theorem searchFirst_bp_colon {d1 d2 : Chars} (h1 : D23 d1) (h2 : D23 d2) :
    searchFirst bp_patterns ('B' :: 'P' :: ':' :: (d1 ++ '/' :: d2)) =
      some (d1 ++ '/' :: d2) := by
  obtain ⟨tl, hp⟩ := bpPat1_head h1 h2
  have hps : psearch false (labelThen "BP" bpGroup)
      ('B' :: 'P' :: ':' :: (d1 ++ '/' :: d2)) =
      some (0, ('B' :: 'P' :: ':' :: (d1 ++ '/' :: d2)).length -
        ([] : Chars).length, d1 ++ '/' :: d2) :=
    psearch_head false (labelThen "BP" bpGroup) 'B'
      ('P' :: ':' :: (d1 ++ '/' :: d2)) (by rw [hp]; rfl)
  simp only [bp_patterns, searchFirst, hps]

theorem extract_vitals_bp_colon {d1 d2 : Chars} (h1 : D23 d1) (h2 : D23 d2) :
    (extract_vitals_advanced (String.mk ('B' :: 'P' :: ':' :: (d1 ++ '/' :: d2)))).bp =
      String.mk (d1 ++ '/' :: d2) := by
  have hs : searchFirst bp_patterns
      (String.mk ('B' :: 'P' :: ':' :: (d1 ++ '/' :: d2))).data =
      some (d1 ++ '/' :: d2) := searchFirst_bp_colon h1 h2
  simp only [extract_vitals_advanced, hs, Option.getD_some]

theorem subAux_empty_eq (wb : Bool) (p : P Unit) (repl : Chars)
    (prev : Option Char) (fuel : Nat) :
    subAux wb p repl prev [] (fuel + 1) =
      match (if !wb || prevNonWord prev then p [] else []) with
      | (_, rest) :: _ =>
        let n := ([] : Chars).length - rest.length
        if n = 0 then repl
        else
          repl ++ subAux wb p repl
            (match (([] : Chars).take n).getLast? with
              | some c2 => some c2
              | none => prev) rest fuel
      | [] => [] := rfl

/-- With an empty replacement, a sub pass over the empty text gives the
empty text, whatever the pattern does. -/
theorem psub_empty_repl (wb : Bool) (p : P Unit) : psub wb p [] [] = [] := by
  unfold psub
  rw [subAux_empty_eq]
  rcases hm : (if !wb || prevNonWord none then p [] else []) with _ | ⟨⟨u, rest⟩, tl⟩
  · rfl
  · simp

theorem labelValPat_BP_self {a : Char} {r : Chars} (ha : a.isDigit = true) :
    ∃ tl, labelValPat "BP" (a :: r) ('B' :: 'P' :: ':' :: a :: r) = ((), []) :: tl := by
  have hlit : plitCI "BP".data ('B' :: 'P' :: ':' :: a :: r) = [((), ':' :: a :: r)] :=
    plitCI_append "BP".data (':' :: a :: r)
  have hmany := pmanyG_wsColon_colon ha r
  have hself : plitCI (a :: r) (a :: r) = [((), [])] := by
    have h0 := plitCI_append (a :: r) []
    rw [List.append_nil] at h0
    exact h0
  refine ⟨plitCI (a :: r) (':' :: a :: r), ?_⟩
  unfold labelValPat
  rw [pbind_singleton _ _ _ _ _ hlit]
  rw [pbind_pair _ _ _ _ _ _ _ hmany]
  rw [hself]
  rfl

theorem psub_labelBP_consume {d1 d2 : Chars} (h1 : D23 d1) (h2 : D23 d2) :
    psub false (labelValPat "BP" (d1 ++ '/' :: d2)) []
      ('B' :: 'P' :: ':' :: (d1 ++ '/' :: d2)) = [] := by
  obtain ⟨a, r1, ha, hcons⟩ := D23_head h1
  have hmatch : ∃ tl, labelValPat "BP" (d1 ++ '/' :: d2)
      ('B' :: 'P' :: ':' :: (d1 ++ '/' :: d2)) = ((), []) :: tl := by
    rw [hcons, List.cons_append]
    exact labelValPat_BP_self ha
  obtain ⟨tl, hm⟩ := hmatch
  unfold psub
  rw [subAux_cons_eq]
  have hg : (if (!false || prevNonWord none) = true
      then labelValPat "BP" (d1 ++ '/' :: d2)
        ('B' :: 'P' :: ':' :: (d1 ++ '/' :: d2)) else []) =
      labelValPat "BP" (d1 ++ '/' :: d2)
        ('B' :: 'P' :: ':' :: (d1 ++ '/' :: d2)) := if_pos rfl
  rw [hg, hm]
  have hn : ('B' :: 'P' :: ':' :: (d1 ++ '/' :: d2)).length - ([] : Chars).length =
      ('B' :: 'P' :: ':' :: (d1 ++ '/' :: d2)).length := by
    simp
  simp only [hn]
  rw [if_neg (by simp)]
  have hnil : labelValPat "BP" (d1 ++ '/' :: d2) [] = [] :=
    pbind_nil plitCI_nil_fail
  rw [subAux_nil false _ [] _ _ hnil]
  rfl

theorem collapseWs_nil : collapseWs ([] : Chars) = [] :=
  psub_nil false wsPlus [' '] wsPlus_nil

theorem remove_vitals_bp_colon {d1 d2 : Chars} (h1 : D23 d1) (h2 : D23 d2)
    (vit : Vitals) (hbp : vit.bp = String.mk (d1 ++ '/' :: d2)) :
    remove_vitals_from_text (String.mk ('B' :: 'P' :: ':' :: (d1 ++ '/' :: d2))) vit = "" := by
  obtain ⟨a, r1, ha, hcons⟩ := D23_head h1
  have hne : String.mk (d1 ++ '/' :: d2) ≠ "" := by
    rw [hcons]
    intro h
    have h2 := congrArg String.data h
    simp at h2
  unfold remove_vitals_from_text
  simp only [hbp]
  rw [if_pos hne]
  have hc1 : psub false (labelValPat "BP" (String.mk (d1 ++ '/' :: d2)).data) []
      (String.mk ('B' :: 'P' :: ':' :: (d1 ++ '/' :: d2))).data = [] :=
    psub_labelBP_consume h1 h2
  rw [hc1]
  rw [psub_empty_repl false (labelValPat "Blood Pressure"
    (String.mk (d1 ++ '/' :: d2)).data)]
  rw [psub_empty_repl false (valUnitPat (String.mk (d1 ++ '/' :: d2)).data "mmHg")]
  split
  · split
    · rw [psub_empty_repl, psub_empty_repl, psub_empty_repl,
        psub_empty_repl, psub_empty_repl, psub_empty_repl, collapseWs_nil]
      rfl
    · rw [psub_empty_repl, psub_empty_repl, psub_empty_repl, collapseWs_nil]
      rfl
  · split
    · rw [psub_empty_repl, psub_empty_repl, psub_empty_repl, collapseWs_nil]
      rfl
    · rw [collapseWs_nil]
      rfl

/-- C3.  Redaction of a labeled blood-pressure reading is complete: for a
text of the form "BP:<v>" with v a validated NNN/NNN value, extraction
finds bp = v, the redactor erases the whole text, and re-running
extraction on the redacted output detects nothing — the extracted value
does not survive redaction.  (The claim fails for unlabeled values; see
the counterexample.) -/
theorem C3_redaction_not_redetect (d1 d2 : Chars) (h1 : D23 d1) (h2 : D23 d2) :
    (extract_vitals_advanced (String.mk ('B' :: 'P' :: ':' :: (d1 ++ '/' :: d2)))).bp =
      String.mk (d1 ++ '/' :: d2) ∧
    remove_vitals_from_text (String.mk ('B' :: 'P' :: ':' :: (d1 ++ '/' :: d2)))
      (extract_vitals_advanced (String.mk ('B' :: 'P' :: ':' :: (d1 ++ '/' :: d2)))) = "" ∧
    extract_vitals_advanced (remove_vitals_from_text
      (String.mk ('B' :: 'P' :: ':' :: (d1 ++ '/' :: d2)))
      (extract_vitals_advanced (String.mk ('B' :: 'P' :: ':' :: (d1 ++ '/' :: d2))))) =
      ⟨"", "", ""⟩ := by
  have hx := extract_vitals_bp_colon h1 h2
  have hrm := remove_vitals_bp_colon h1 h2 _ hx
  refine ⟨hx, hrm, ?_⟩
  rw [hrm]
  decide

/-- Witness for C3 at the concrete reading 120/80. -/
theorem C3_witness :
    D23 ['1', '2', '0'] ∧ D23 ['8', '0'] ∧
    ((extract_vitals_advanced (String.mk ('B' :: 'P' :: ':' ::
        (['1', '2', '0'] ++ '/' :: ['8', '0'])))).bp =
      String.mk (['1', '2', '0'] ++ '/' :: ['8', '0']) ∧
    remove_vitals_from_text (String.mk ('B' :: 'P' :: ':' ::
        (['1', '2', '0'] ++ '/' :: ['8', '0'])))
      (extract_vitals_advanced (String.mk ('B' :: 'P' :: ':' ::
        (['1', '2', '0'] ++ '/' :: ['8', '0'])))) = "" ∧
    extract_vitals_advanced (remove_vitals_from_text
      (String.mk ('B' :: 'P' :: ':' :: (['1', '2', '0'] ++ '/' :: ['8', '0'])))
      (extract_vitals_advanced (String.mk ('B' :: 'P' :: ':' ::
        (['1', '2', '0'] ++ '/' :: ['8', '0']))))) = ⟨"", "", ""⟩) :=
  ⟨by unfold D23; decide, by unfold D23; decide,
    C3_redaction_not_redetect ['1', '2', '0'] ['8', '0']
      (by unfold D23; decide) (by unfold D23; decide)⟩

/-- C3 counterexample: a bare "120/80" with no label and no unit is
extracted as bp but survives redaction verbatim and is re-detected. -/
theorem C3_counterexample :
    (extract_vitals_advanced "120/80").bp = "120/80" ∧
    remove_vitals_from_text "120/80" (extract_vitals_advanced "120/80") = "120/80" ∧
    (extract_vitals_advanced (remove_vitals_from_text "120/80"
      (extract_vitals_advanced "120/80"))).bp = "120/80" := by
  refine ⟨?_, ?_, ?_⟩ <;> decide!

set_option maxHeartbeats 4000000 in
/-- C1.  On the worked example the engine returns a record whose
chief_complaint contains "fever and cough", whose vitals are
120/80 / 78 / 110, which carries exactly one medication entry and it
starts with "Metformin", whose follow_up_day is "2 Weeks", and whose
follow-up mode and visit type are both "Teleconsultation". -/
theorem C1_engine_on_example :
    ∃ rec, extract_medical_data_advanced "Patient complains of fever and cough. BP: 120/80, PR: 78, RBS: 110. Started on Metformin 500mg. Follow up in 2 weeks via video call." =
      Except.ok rec ∧
    pyIn "fever and cough".data rec.chief_complaint.data = true ∧
    rec.vitals_examination = ⟨"120/80", "78", "110"⟩ ∧
    rec.medication_data.length = 1 ∧
    (rec.medication_data.countP fun m =>
      "Metformin".data.isPrefixOf m.medication.data) = 1 ∧
    rec.follow_up_day = "2 Weeks" ∧
    rec.follow_up_mode = "Teleconsultation" ∧
    rec.visit_type = "Teleconsultation" := by
  refine ⟨{ chief_complaint := "fever and cough",
            consult_summary := "Patient fever.",
            vitals_examination := ⟨"120/80", "78", "110"⟩,
            medication_data := [⟨"Metformin 500mg", "1-0-1", "2 weeks", "Before food", "1"⟩],
            investigations := [], medicine_templates := [], super_templates := [],
            advice := "up in 2 weeks via video call.",
            follow_up_day := "2 Weeks",
            follow_up_mode := "Teleconsultation",
            visit_type := "Teleconsultation" }, ?_, ?_, ?_, ?_, ?_, ?_, ?_, ?_⟩
  · decide!
  · decide
  · rfl
  · rfl
  · decide
  · rfl
  · rfl
  · rfl

set_option maxHeartbeats 4000000 in
/-- C10.  investigation_id is not a unique key: "Chest X-Ray and CRP."
yields two entries with distinct names but the same id "78", and a text
naming a thyroid function test and vitamin D yields two entries sharing
id "89". -/
theorem C10_duplicate_investigation_id :
    extract_investigations_advanced "Chest X-Ray and CRP." =
      [⟨"Chest X-Ray", "78"⟩, ⟨"CRP", "78"⟩] ∧
    extract_investigations_advanced "Thyroid function test and Vitamin D advised." =
      [⟨"Thyroid Function Test", "89"⟩, ⟨"Vitamin D", "89"⟩] ∧
    ("Chest X-Ray" : String) ≠ "CRP" ∧
    ("Thyroid Function Test" : String) ≠ "Vitamin D" := by
  refine ⟨?_, ?_, ?_, ?_⟩
  · decide!
  · decide!
  · decide
  · decide

/-! ## C4: medication (name, dose) pair distinctness -/

/-- Shape of the dose group `([0-9]+\s*mg)` capture. -/
def DoseShape (l : Chars) : Prop :=
  ∃ ds ws a b, l = ds ++ ws ++ [a, b] ∧ ds ≠ [] ∧
    (∀ c ∈ ds, c.isDigit = true) ∧ (∀ c ∈ ws, isPyWs c = true) ∧
    ciEq a 'm' = true ∧ ciEq b 'g' = true

theorem forall2_ciEq_two {l : Chars} {c1 c2 : Char}
    (h : List.Forall₂ (fun d c => ciEq d c = true) l [c1, c2]) :
    ∃ a b, l = [a, b] ∧ ciEq a c1 = true ∧ ciEq b c2 = true := by
  cases h with
  | cons h1 h2 =>
    cases h2 with
    | cons h3 h4 =>
      cases h4
      exact ⟨_, _, rfl, h1, h3⟩

theorem mem_doseGrp {cs rest g : Chars} (h : (g, rest) ∈ doseGrp cs) :
    DoseShape g := by
  unfold doseGrp at h
  rw [mem_pbind] at h
  obtain ⟨ds, m1, hds, h⟩ := h
  rw [mem_pbind] at h
  obtain ⟨ws, m2, hws, h⟩ := h
  rw [mem_pbind] at h
  obtain ⟨mg, m3, hmg, h⟩ := h
  rw [mem_ppure] at h
  obtain ⟨rfl, rfl⟩ := h
  obtain ⟨hne, hdig, _⟩ := mem_pmany1G hds
  obtain ⟨hwsall, _⟩ := mem_pmanyG hws
  obtain ⟨hf, _⟩ := mem_plitCIc hmg
  rw [show "mg".data = ['m', 'g'] from rfl] at hf
  obtain ⟨a, b, rfl, h1, h2⟩ := forall2_ciEq_two hf
  exact ⟨ds, ws, a, b, rfl, hne, hdig, hwsall, h1, h2⟩

theorem med_patterns_cap_shape {name : Chars} :
    ∀ pr ∈ med_patterns name, ∀ {cs rest : Chars} {o : Option Chars},
      (o, rest) ∈ pr.2 cs → ∀ gg, o = some gg → DoseShape gg := by
  intro pr hpr
  simp only [med_patterns, List.mem_cons, List.not_mem_nil, or_false] at hpr
  rcases hpr with rfl | rfl | rfl | rfl | rfl | rfl | rfl <;>
    intro cs rest o h gg hg <;> subst hg
  · rw [mem_pbind] at h
    obtain ⟨_, _, _, h⟩ := h
    rw [mem_pbind] at h
    obtain ⟨_, _, _, h⟩ := h
    rcases mem_popt h with ⟨hnone, _⟩ | ⟨d, hsome, hd⟩
    · cases hnone
    · cases hsome
      exact mem_doseGrp hd
  · rw [mem_pbind] at h
    obtain ⟨_, _, _, h⟩ := h
    rw [mem_pbind] at h
    obtain ⟨_, _, _, h⟩ := h
    rw [mem_pbind] at h
    obtain ⟨_, _, _, h⟩ := h
    rw [mem_pbind] at h
    obtain ⟨_, _, _, h⟩ := h
    rcases mem_popt h with ⟨hnone, _⟩ | ⟨d, hsome, hd⟩
    · cases hnone
    · cases hsome
      exact mem_doseGrp hd
  · rw [mem_pbind] at h
    obtain ⟨_, _, _, h⟩ := h
    rw [mem_pbind] at h
    obtain ⟨_, _, _, h⟩ := h
    rw [mem_pbind] at h
    obtain ⟨d, _, hd, h⟩ := h
    rw [mem_ppure] at h
    obtain ⟨ho, _⟩ := h
    cases ho
    exact mem_doseGrp hd
  · rw [mem_pbind] at h
    obtain ⟨_, _, _, h⟩ := h
    rw [mem_pbind] at h
    obtain ⟨_, _, _, h⟩ := h
    rw [mem_pbind] at h
    obtain ⟨_, _, _, h⟩ := h
    rw [mem_ppure] at h
    obtain ⟨ho, _⟩ := h
    cases ho
  · rw [mem_pbind] at h
    obtain ⟨_, _, _, h⟩ := h
    obtain ⟨cs2, h⟩ := mem_plazyDotsGo h
    rw [mem_pbind] at h
    obtain ⟨_, _, _, h⟩ := h
    rw [mem_ppure] at h
    obtain ⟨ho, _⟩ := h
    cases ho
  · rw [mem_pbind] at h
    obtain ⟨_, _, _, h⟩ := h
    obtain ⟨cs2, h⟩ := mem_plazyDotsGo h
    rw [mem_pbind] at h
    obtain ⟨_, _, _, h⟩ := h
    rw [mem_ppure] at h
    obtain ⟨ho, _⟩ := h
    cases ho
  · rw [mem_pbind] at h
    obtain ⟨_, _, _, h⟩ := h
    obtain ⟨cs2, h⟩ := mem_plazyDotsGo h
    rw [mem_pbind] at h
    obtain ⟨_, _, _, h⟩ := h
    rw [mem_ppure] at h
    obtain ⟨ho, _⟩ := h
    cases ho

theorem medFindLoop_cap :
    ∀ {pats : List (Bool × P (Option Chars))} {cs : Chars} {s e : Nat}
      {capOpt : Option Chars},
    (∀ pr ∈ pats, ∀ {cs2 rest : Chars} {o : Option Chars},
      (o, rest) ∈ pr.2 cs2 → ∀ gg, o = some gg → DoseShape gg) →
    medFindLoop pats cs = some (s, e, capOpt) →
    ∀ gg, capOpt = some gg → DoseShape gg := by
  intro pats
  induction pats with
  | nil =>
    intro cs s e capOpt _ h
    cases h
  | cons pr rest ih =>
    intro cs s e capOpt hall h gg hg
    obtain ⟨wb, p⟩ := pr
    unfold medFindLoop at h
    revert h
    cases hm : psearch wb p cs with
    | some x =>
      intro h
      cases h
      obtain ⟨cs2, rst, hmem⟩ := psearch_sound hm
      exact hall (wb, p) (List.mem_cons_self _ _) hmem gg hg
    | none =>
      intro h
      exact ih (fun q hq => hall q (List.mem_cons_of_mem _ hq)) h gg hg

theorem findMed_cap {name : Chars} {cs : Chars} {s e : Nat}
    {capOpt : Option Chars} (h : findMed name cs = some (s, e, capOpt))
    {gg : Chars} (hg : capOpt = some gg) : DoseShape gg :=
  medFindLoop_cap med_patterns_cap_shape h gg hg

/-- What a tier-1 entry's medication string looks like. -/
def MedShape (p : MedRow × String) (entry : MedicationEntry) : Prop :=
  ∃ dd, entry.medication = String.mk (p.2.data ++ ' ' :: dd) ∧
    (DoseShape dd ∨ dd = p.1.default_dose.data)

theorem tier1MedEntry_medication {row : MedRow} {n : String} {cs : Chars}
    {s e : Nat} {capOpt : Option Chars} {entry : MedicationEntry}
    (h : tier1MedEntry row n cs s e capOpt = .ok entry) :
    entry.medication = String.mk (n.data ++ ' ' ::
      (match capOpt with
        | some d => d
        | none => row.default_dose.data)) := by
  unfold tier1MedEntry at h
  simp only [] at h
  rcases hdp : extract_dosage_pattern (ctxWindow cs s e) with er | dp
  · rw [hdp] at h
    cases h
  · rw [hdp] at h
    rcases hdu : extract_duration_pattern (ctxWindow cs s e) with er | du
    · rw [hdu] at h
      cases h
    · rw [hdu] at h
      simp only [] at h
      cases h
      cases capOpt <;> rfl

theorem tier1Meds_shape :
    ∀ {pairs : List (MedRow × String)} {cs : Chars}
      {t1 : List MedicationEntry},
    tier1Meds pairs cs = .ok t1 →
    ∃ ps : List (MedRow × String), ps.Sublist pairs ∧
      List.Forall₂ MedShape ps t1 := by
  intro pairs
  induction pairs with
  | nil =>
    intro cs t1 h
    cases h
    exact ⟨[], List.Sublist.refl _, List.Forall₂.nil⟩
  | cons pr rest ih =>
    intro cs t1 h
    obtain ⟨row, n⟩ := pr
    rw [tier1Meds_cons_eq] at h
    revert h
    cases hf : findMed n.data cs with
    | none =>
      intro h
      obtain ⟨ps, hsub, hfa⟩ := ih h
      exact ⟨ps, hsub.cons _, hfa⟩
    | some x =>
      obtain ⟨s, e, capOpt⟩ := x
      intro h
      simp only [] at h
      rcases he : tier1MedEntry row n cs s e capOpt with er | entry
      · rw [he] at h
        cases h
      · rw [he] at h
        rcases ht : tier1Meds rest cs with er2 | restE
        · rw [ht] at h
          cases h
        · rw [ht] at h
          cases h
          obtain ⟨ps, hsub, hfa⟩ := ih ht
          refine ⟨(row, n) :: ps, hsub.cons₂ _, List.Forall₂.cons ?_ hfa⟩
          have hmed := tier1MedEntry_medication he
          cases capOpt with
          | some d => exact ⟨d, hmed, Or.inl (findMed_cap hf rfl)⟩
          | none => exact ⟨row.default_dose.data, hmed, Or.inr rfl⟩

theorem string_data_inj {s t : String} (h : s.data = t.data) : s = t := by
  cases s
  cases t
  cases h
  rfl

theorem ciEq_m_not_digit {a : Char} (h : ciEq a 'm' = true) : a.isDigit = false := by
  by_contra hc
  simp only [Bool.not_eq_false] at hc
  rw [digit_not_ciEq a 'm' hc (by decide)] at h
  cases h

theorem pyWs_not_ciEq_m {a : Char} (h : isPyWs a = true) : ciEq a 'm' = false := by
  unfold isPyWs at h
  simp only [Bool.or_eq_true, decide_eq_true_eq] at h
  rcases h with ((((h | h) | h) | h) | h) | h <;> subst h <;> decide

/-- A dose-group capture can never have the form `650 <digit>...`: its
digits stop at the first non-digit, which must open the whitespace run or
the `mg` unit, never a second digit block. -/
theorem doseShape_no_650_space {d1 : Chars} (h : DoseShape d1)
    {hd : Char} (hdig : hd.isDigit = true) (r : Chars)
    (heq : d1 = '6' :: '5' :: '0' :: ' ' :: hd :: r) : False := by
  obtain ⟨ds, ws, a, b, rfl, hne, hdigs, hws, ha, hb⟩ := h
  rcases ds with _ | ⟨a1, ds1⟩
  · exact absurd rfl hne
  rcases ds1 with _ | ⟨a2, ds2⟩
  · -- ds = [a1]
    simp only [List.cons_append, List.nil_append, List.cons.injEq] at heq
    obtain ⟨rfl, heq⟩ := heq
    rcases ws with _ | ⟨w, ws1⟩
    · simp only [List.nil_append, List.cons.injEq] at heq
      obtain ⟨rfl, _⟩ := heq
      exact absurd ha (by decide)
    · simp only [List.cons_append, List.cons.injEq] at heq
      obtain ⟨rfl, _⟩ := heq
      exact absurd (hws _ (List.mem_cons_self _ _)) (by decide)
  rcases ds2 with _ | ⟨a3, ds3⟩
  · -- ds = [a1, a2]
    simp only [List.cons_append, List.nil_append, List.cons.injEq] at heq
    obtain ⟨rfl, rfl, heq⟩ := heq
    rcases ws with _ | ⟨w, ws1⟩
    · simp only [List.nil_append, List.cons.injEq] at heq
      obtain ⟨rfl, _⟩ := heq
      exact absurd ha (by decide)
    · simp only [List.cons_append, List.cons.injEq] at heq
      obtain ⟨rfl, _⟩ := heq
      exact absurd (hws _ (List.mem_cons_self _ _)) (by decide)
  rcases ds3 with _ | ⟨a4, ds4⟩
  · -- ds = [a1, a2, a3]
    simp only [List.cons_append, List.nil_append, List.cons.injEq] at heq
    obtain ⟨rfl, rfl, rfl, heq⟩ := heq
    rcases ws with _ | ⟨w, ws1⟩
    · simp only [List.nil_append, List.cons.injEq] at heq
      obtain ⟨rfl, _⟩ := heq
      exact absurd ha (by decide)
    · simp only [List.cons_append, List.cons.injEq] at heq
      obtain ⟨rfl, heq⟩ := heq
      rcases ws1 with _ | ⟨w2, ws2⟩
      · simp only [List.nil_append, List.cons.injEq] at heq
        obtain ⟨rfl, _⟩ := heq
        rw [ciEq_m_not_digit ha] at hdig
        cases hdig
      · simp only [List.cons_append, List.cons.injEq] at heq
        obtain ⟨rfl, _⟩ := heq
        have hw2 := hws _ (List.mem_cons_of_mem _ (List.mem_cons_self _ _))
        rw [digit_not_ws _ hdig] at hw2
        cases hw2
  · -- |ds| ≥ 4: the fourth char of the capture is a digit, not ' '
    simp only [List.cons_append, List.cons.injEq] at heq
    obtain ⟨_, _, _, rfl, _⟩ := heq
    exact absurd (hdigs ' ' (by simp)) (by decide)

theorem append_space_inj : ∀ (a b x y : Chars),
    a ++ ' ' :: x = b ++ ' ' :: y →
    (a = b ∧ x = y) ∨
    (∃ t, b = a ++ ' ' :: t ∧ x = t ++ ' ' :: y) ∨
    (∃ t, a = b ++ ' ' :: t ∧ y = t ++ ' ' :: x) := by
  intro a
  induction a with
  | nil =>
    intro b x y h
    cases b with
    | nil =>
      simp only [List.nil_append, List.cons.injEq, true_and] at h
      exact Or.inl ⟨rfl, h⟩
    | cons c bt =>
      simp only [List.nil_append, List.cons_append, List.cons.injEq] at h
      obtain ⟨hc, hx⟩ := h
      refine Or.inr (Or.inl ⟨bt, ?_, hx⟩)
      rw [← hc]
      rfl
  | cons c at2 ih =>
    intro b x y h
    cases b with
    | nil =>
      simp only [List.cons_append, List.nil_append, List.cons.injEq] at h
      obtain ⟨hc, hy⟩ := h
      refine Or.inr (Or.inr ⟨at2, ?_, hy.symm⟩)
      rw [hc]
      rfl
    | cons cb bt =>
      simp only [List.cons_append, List.cons.injEq] at h
      obtain ⟨rfl, ht⟩ := h
      rcases ih bt x y ht with ⟨rfl, rfl⟩ | ⟨t, h1, h2⟩ | ⟨t, h1, h2⟩
      · exact Or.inl ⟨rfl, rfl⟩
      · refine Or.inr (Or.inl ⟨t, ?_, h2⟩)
        rw [List.cons_append, h1]
      · refine Or.inr (Or.inr ⟨t, ?_, h2⟩)
        rw [List.cons_append, h1]

set_option maxHeartbeats 4000000 in
theorem medPairs_snd_distinct : medPairs.Pairwise (fun p q => p.2 ≠ q.2) := by
  decide!

set_option maxHeartbeats 4000000 in
/-- The only table synonym that extends another synonym across a space is
"Dolo 650" extending "Dolo"; both live in the row whose default dose is
"650mg". -/
theorem table_space_prefix : ∀ p ∈ medPairs, ∀ q ∈ medPairs,
    (p.2.data ++ [' ']).isPrefixOf q.2.data = true →
    p.2 = "Dolo" ∧ q.2 = "Dolo 650" ∧ p.1.default_dose = "650mg" ∧
      q.1.default_dose = "650mg" := by
  decide!

theorem doseLike_head {d : Chars} (h : DoseShape d ∨ d = "650mg".data) :
    ∃ hd r, d = hd :: r ∧ hd.isDigit = true := by
  rcases h with ⟨ds, ws, a, b, rfl, hne, hdigs, _, _, _⟩ | rfl
  · rcases ds with _ | ⟨d0, ds1⟩
    · exact absurd rfl hne
    · exact ⟨d0, ds1 ++ ws ++ [a, b], by simp, hdigs d0 (List.mem_cons_self _ _)⟩
  · exact ⟨'6', ['5', '0', 'm', 'g'], rfl, by decide⟩

theorem forall2_mem_right {α β : Type} {S : α → β → Prop} :
    ∀ {l₁ : List α} {l₂ : List β}, List.Forall₂ S l₁ l₂ →
    ∀ y ∈ l₂, ∃ a ∈ l₁, S a y := by
  intro l₁ l₂ hf
  induction hf with
  | nil =>
    intro y hy
    cases hy
  | cons hs hft ih =>
    intro y hy
    rcases List.mem_cons.mp hy with rfl | hy2
    · exact ⟨_, List.mem_cons_self _ _, hs⟩
    · obtain ⟨a, ha, hsa⟩ := ih y hy2
      exact ⟨a, List.mem_cons_of_mem _ ha, hsa⟩

/-- Two distinct table synonyms can never produce the same tier-1
medication string. -/
theorem med_collision {p q : MedRow × String} {e f : MedicationEntry}
    (hp : p ∈ medPairs) (hq : q ∈ medPairs) (hne : p.2 ≠ q.2)
    (he : MedShape p e) (hf : MedShape q f) : e.medication ≠ f.medication := by
  obtain ⟨d1, he1, he2⟩ := he
  obtain ⟨d2, hf1, hf2⟩ := hf
  intro heq
  rw [he1, hf1] at heq
  have heql : p.2.data ++ ' ' :: d1 = q.2.data ++ ' ' :: d2 :=
    congrArg String.data heq
  rcases append_space_inj _ _ _ _ heql with ⟨hname, _⟩ | ⟨t, hpre, hd1⟩ |
    ⟨t, hpre, hd2⟩
  · exact hne (string_data_inj hname)
  · have hpref : (p.2.data ++ [' ']).isPrefixOf q.2.data = true := by
      rw [hpre, List.isPrefixOf_iff_prefix]
      exact ⟨t, by simp⟩
    obtain ⟨hpd, hqd, hpdef, hqdef⟩ := table_space_prefix p hp q hq hpref
    rw [hpd, hqd] at hpre
    rw [show ("Dolo 650" : String).data = ['D', 'o', 'l', 'o', ' ', '6', '5', '0'] from rfl,
      show ("Dolo" : String).data = ['D', 'o', 'l', 'o'] from rfl] at hpre
    simp only [List.cons_append, List.nil_append, List.cons.injEq, true_and] at hpre
    rw [hqdef] at hf2
    obtain ⟨hd0, rr, hd2c, hd0dig⟩ := doseLike_head hf2
    rw [hd2c] at hd1
    rw [← hpre] at hd1
    have hd1' : d1 = '6' :: '5' :: '0' :: ' ' :: hd0 :: rr := by
      rw [hd1]
      rfl
    rcases he2 with hds | hdef
    · exact doseShape_no_650_space hds hd0dig rr hd1'
    · rw [hpdef] at hdef
      rw [hdef,
        show ("650mg" : String).data = ['6', '5', '0', 'm', 'g'] from rfl] at hd1'
      simp at hd1'
  · have hpref : (q.2.data ++ [' ']).isPrefixOf p.2.data = true := by
      rw [hpre, List.isPrefixOf_iff_prefix]
      exact ⟨t, by simp⟩
    obtain ⟨hqd, hpd, hqdef, hpdef⟩ := table_space_prefix q hq p hp hpref
    rw [hqd, hpd] at hpre
    rw [show ("Dolo 650" : String).data = ['D', 'o', 'l', 'o', ' ', '6', '5', '0'] from rfl,
      show ("Dolo" : String).data = ['D', 'o', 'l', 'o'] from rfl] at hpre
    simp only [List.cons_append, List.nil_append, List.cons.injEq, true_and] at hpre
    rw [hpdef] at he2
    obtain ⟨hd0, rr, hd1c, hd0dig⟩ := doseLike_head he2
    rw [hd1c] at hd2
    rw [← hpre] at hd2
    have hd2' : d2 = '6' :: '5' :: '0' :: ' ' :: hd0 :: rr := by
      rw [hd2]
      rfl
    rcases hf2 with hds | hdef
    · exact doseShape_no_650_space hds hd0dig rr hd2'
    · rw [hqdef] at hdef
      rw [hdef,
        show ("650mg" : String).data = ['6', '5', '0', 'm', 'g'] from rfl] at hd2'
      simp at hd2'

theorem tier1_forall2_pairwise :
    ∀ {ps : List (MedRow × String)} {t1 : List MedicationEntry},
    List.Forall₂ MedShape ps t1 → ps.Pairwise (fun p q => p.2 ≠ q.2) →
    (∀ p ∈ ps, p ∈ medPairs) →
    t1.Pairwise (fun a b => a.medication ≠ b.medication) := by
  intro ps t1 hf
  induction hf with
  | nil =>
    intro _ _
    exact List.Pairwise.nil
  | cons hs hft ih =>
    intro hp hm
    rw [List.pairwise_cons] at hp
    obtain ⟨hhead, htail⟩ := hp
    refine List.Pairwise.cons ?_
      (ih htail (fun q hq => hm q (List.mem_cons_of_mem _ hq)))
    intro y hy
    obtain ⟨q, hqmem, hqy⟩ := forall2_mem_right hft y hy
    exact med_collision (hm _ (List.mem_cons_self _ _))
      (hm q (List.mem_cons_of_mem _ hqmem)) (hhead q hqmem) hs hqy

/-- Tier-1 entries carry pairwise-distinct medication strings. -/
theorem tier1_pairwise_med {cs : Chars} {t1 : List MedicationEntry}
    (h : tier1Meds medPairs cs = .ok t1) :
    t1.Pairwise (fun a b => a.medication ≠ b.medication) := by
  obtain ⟨ps, hsub, hfa⟩ := tier1Meds_shape h
  exact tier1_forall2_pairwise hfa (medPairs_snd_distinct.sublist hsub)
    (fun p hp => hsub.subset hp)

/-- The C4 relation: no two entries share both name and dose. -/
def MedDiff (a b : MedicationEntry) : Prop :=
  ¬(a.medication = b.medication ∧ a.dose = b.dose)

theorem pyIn_of_isPrefixOf {sub big : Chars} (h : sub.isPrefixOf big = true) :
    pyIn sub big = true := by
  cases big with
  | nil => exact h
  | cons c r =>
    unfold pyIn pyInAux
    rw [h]
    simp

theorem pairwise_append_new {acc : List MedicationEntry}
    (hacc : acc.Pairwise MedDiff) {nm : Chars} (dval : Chars)
    (hguard : ¬(acc.any fun m =>
      pyIn (lowerL (pyStrip nm)) (lowerL m.medication.data)) = true) :
    (acc ++ [({ medication := String.mk (pyStrip nm ++ ' ' :: dval)
                dose := "1-0-1", duration := "As directed"
                medication_when := "After food"
                medication_id := "" } : MedicationEntry)]).Pairwise MedDiff := by
  rw [List.pairwise_append]
  refine ⟨hacc, List.pairwise_singleton _ _, ?_⟩
  intro a ha b hb
  rw [List.mem_singleton] at hb
  subst hb
  rintro ⟨hmed, _⟩
  apply hguard
  rw [List.any_eq_true]
  refine ⟨a, ha, ?_⟩
  have hdata : a.medication.data = pyStrip nm ++ ' ' :: dval := by
    rw [hmed]
  rw [hdata]
  unfold lowerL
  rw [List.map_append]
  apply pyIn_of_isPrefixOf
  rw [List.isPrefixOf_iff_prefix]
  exact ⟨_, rfl⟩

theorem tier2MedsFold_pairwise :
    ∀ {cands : List (Chars × Option Chars)} {acc : List MedicationEntry},
    acc.Pairwise MedDiff → (tier2MedsFold acc cands).Pairwise MedDiff := by
  intro cands
  induction cands with
  | nil =>
    intro acc h
    exact h
  | cons cd rest ih =>
    intro acc hacc
    obtain ⟨nm, d⟩ := cd
    show (if acc.any (fun m => pyIn (lowerL (pyStrip nm)) (lowerL m.medication.data))
        then tier2MedsFold acc rest
        else tier2MedsFold (acc ++
          [{ medication := String.mk (pyStrip nm ++ ' ' ::
              (match d with
                | some dd => dd
                | none => "As prescribed".data))
             dose := "1-0-1", duration := "As directed"
             medication_when := "After food", medication_id := "" }]) rest).Pairwise MedDiff
    split
    next hguard => exact ih hacc
    next hguard => exact ih (pairwise_append_new hacc _ hguard)

theorem numberMeds_pairwise {l : List MedicationEntry}
    (h : l.Pairwise MedDiff) : (numberMeds l).Pairwise MedDiff := by
  unfold numberMeds
  rw [List.pairwise_map]
  rw [← List.enum_map_snd l, List.pairwise_map] at h
  exact h.imp (fun hab => hab)

/-- C4.  For every input, the medication extractor never returns two
entries sharing both the medication string and the dose: tier-1 entries
have pairwise-distinct medication strings (distinct table synonyms cannot
collide, the only space-prefix pair "Dolo"/"Dolo 650" being separated by
the shape of the dose group), and a tier-2 candidate equal to an earlier
entry is skipped by the substring guard.  (The claim's other half fails:
one canonical drug can contribute two entries; see the counterexample.) -/
theorem C4_medication_dose_pairwise (text : String) (ms : List MedicationEntry)
    (h : extract_medications_advanced text = .ok ms) :
    ms.Pairwise (fun a b => ¬(a.medication = b.medication ∧ a.dose = b.dose)) := by
  unfold extract_medications_advanced at h
  simp only [] at h
  rcases ht : tier1Meds medPairs text.data with er | t1
  · rw [ht] at h
    cases h
  · rw [ht] at h
    cases h
    exact numberMeds_pairwise (tier2MedsFold_pairwise
      ((tier1_pairwise_med ht).imp (fun hne h2 => hne h2.1)))

set_option maxHeartbeats 4000000 in
/-- Witness for C4 on "Dolo 650 given": both Dolo-row synonyms match, and
the two entries still differ in their medication strings. -/
theorem C4_witness :
    extract_medications_advanced "Dolo 650 given" = .ok
      [⟨"Dolo 650mg", "1-1-1", "3 days", "After food", "1"⟩,
       ⟨"Dolo 650 650mg", "1-1-1", "3 days", "After food", "2"⟩] ∧
    ([⟨"Dolo 650mg", "1-1-1", "3 days", "After food", "1"⟩,
      ⟨"Dolo 650 650mg", "1-1-1", "3 days", "After food", "2"⟩] :
        List MedicationEntry).Pairwise
      (fun a b => ¬(a.medication = b.medication ∧ a.dose = b.dose)) :=
  ⟨by decide!, C4_medication_dose_pairwise "Dolo 650 given" _ (by decide!)⟩

set_option maxHeartbeats 4000000 in
/-- C4 counterexample: the canonical Paracetamol/Acetaminophen row
contributes two MedicationEntry items when both its synonyms occur. -/
theorem C4_counterexample :
    extract_medications_advanced "Paracetamol and Acetaminophen" = .ok
      [⟨"Paracetamol 500mg", "1-0-1", "5 days", "After food", "1"⟩,
       ⟨"Acetaminophen 500mg", "1-0-1", "5 days", "After food", "2"⟩] ∧
    (∃ row ∈ medication_db, row.names = ["Paracetamol", "Acetaminophen"]) ∧
    (([⟨"Paracetamol 500mg", "1-0-1", "5 days", "After food", "1"⟩,
       ⟨"Acetaminophen 500mg", "1-0-1", "5 days", "After food", "2"⟩] :
        List MedicationEntry).countP
      (fun m => (["Paracetamol", "Acetaminophen"] : List String).any
        fun n => n.data.isPrefixOf m.medication.data)) = 2 := by
  refine ⟨?_, ?_, ?_⟩
  · decide!
  · exact ⟨⟨["Paracetamol", "Acetaminophen"], "500mg", "1-0-1", "5 days",
      "After food"⟩, List.mem_cons_self _ _, rfl⟩
  · decide
